import Mathlib

/-!
Verification of the botty request-dispatch core: the message registry
(`src/botty/routing/registry.py`), the dependency-resolution engine
(`src/botty/di/`), the response processor
(`src/botty/routing/response_processor.py`), the PTB outbound adapter
(`src/botty/adapters/ptb_bot.py`) and the router's request scope
(`src/botty/routing/router.py`).

Python dictionaries are modelled as association lists, deques as lists
(front = oldest), floats (timestamps) as integers, and Python `None` as
`Option.none`.  Exceptions are modelled with `Except`.
-/

namespace Botty

/-! ## Association-list model of Python dict -/

def lookupA {α β : Type} [DecidableEq α] (k : α) : List (α × β) → Option β
  | [] => none
  | (k', v) :: rest => if k' = k then some v else lookupA k rest

/-- Python `d[k] = v`: replace in place if the key exists (Python dicts keep the
original position), otherwise append. -/
def upsertA {α β : Type} [DecidableEq α] (k : α) (v : β) : List (α × β) → List (α × β)
  | [] => [(k, v)]
  | (k', v') :: rest => if k' = k then (k, v) :: rest else (k', v') :: upsertA k v rest

/-- Python `del d[k]`. -/
def eraseKeyA {α β : Type} [DecidableEq α] (k : α) : List (α × β) → List (α × β)
  | [] => []
  | (k', v') :: rest => if k' = k then rest else (k', v') :: eraseKeyA k rest

/-- Python `list.remove`: drop the first element equal to `a` (no-op when
absent; the source guards the `ValueError` with `pass`). -/
def eraseFirst {α : Type} [DecidableEq α] (a : α) : List α → List α
  | [] => []
  | x :: xs => if x = a then xs else x :: eraseFirst a xs

/-- Number of occurrences of `a` in a list. -/
def occ {α : Type} [DecidableEq α] (a : α) : List α → Nat
  | [] => 0
  | x :: xs => (if x = a then 1 else 0) + occ a xs

/-- Python string truthiness: `s or d` treats both `None` and `""` as falsy. -/
def pyTruthyStr (s : Option String) : Option String :=
  match s with
  | none => none
  | some s' => if s' = "" then none else some s'

/-- Python int truthiness: `if chat_id:` treats both `None` and `0` as falsy. -/
def pyTruthyInt (i : Option Int) : Option Int :=
  match i with
  | none => none
  | some n => if n = 0 then none else some n

/-! ## Data model (`src/botty/domain/entities.py`, `registry.py`) -/

/-- Model of `botty.domain.Message`: the minimal descriptor returned by the bot
client.  `date` is `Option` because the source guards `message.date`. -/
structure Message where
  message_id : Int
  chat_id : Int
  date : Option Int
  deriving DecidableEq, Repr

/-- Model of `MessageRecord` from `registry.py` (metadata dict as an assoc list). -/
structure MessageRecord where
  message_id : Int
  chat_id : Int
  handler_name : String
  timestamp : Int
  metadata : List (String × String)
  deriving DecidableEq, Repr

/-- Model of the `MessageRegistry` state: per-chat FIFO deques (front = oldest), a key
index and a handler index. -/
structure MessageRegistry where
  max_messages_per_chat : Nat
  registry : List (Int × List MessageRecord)
  key_registry : List (String × MessageRecord)
  handler_registry : List (String × List MessageRecord)
  deriving DecidableEq, Repr

/-- Model of `MessageRegistry.__init__`. -/
def MessageRegistry.empty (maxPerChat : Nat) : MessageRegistry :=
  ⟨maxPerChat, [], [], []⟩

/-- The FIFO deque of one chat (`[]` when the chat has no entry yet). -/
def fifoOf (reg : MessageRegistry) (chat : Int) : List MessageRecord :=
  (lookupA chat reg.registry).getD []

/-- The handler index list of one handler name. -/
def handlerAll (reg : MessageRegistry) (h : String) : List MessageRecord :=
  (lookupA h reg.handler_registry).getD []

/-- Model of `deque.append` on a deque with `maxlen`: when full the oldest (leftmost)
element is dropped; with `maxlen=0` the deque stays empty. -/
def dequeAppend (maxlen : Nat) (fifo : List MessageRecord) (r : MessageRecord) :
    List MessageRecord :=
  if maxlen = 0 then fifo
  else if maxlen ≤ fifo.length then fifo.tail ++ [r]
  else fifo ++ [r]

/-- The handler-index part of `_cleanup_record_references`: remove the
first structurally-equal occurrence of `record` from its handler's list
(a `ValueError` from `list.remove` is swallowed), deleting the handler
entry when the list becomes empty. -/
def cleanup_handler_index (handler_registry : List (String × List MessageRecord))
    (record : MessageRecord) : List (String × List MessageRecord) :=
  match lookupA record.handler_name handler_registry with
  | none => handler_registry
  | some l =>
    if record ∈ l then
      let l' := eraseFirst record l
      if l' = [] then eraseKeyA record.handler_name handler_registry
      else upsertA record.handler_name l' handler_registry
    else handler_registry

/-- Model of `MessageRegistry._cleanup_record_references`: drop every key whose record
shares the evicted record's `message_id`, then clean the handler index. -/
def cleanup_record_references (reg : MessageRegistry) (record : MessageRecord) :
    MessageRegistry :=
  let key_registry := reg.key_registry.filter
    (fun kv => ¬ kv.2.message_id = record.message_id)
  let handler_registry := cleanup_handler_index reg.handler_registry record
  { reg with key_registry := key_registry, handler_registry := handler_registry }

/-- The `MessageRecord` built at the top of `register_message`: `now`
stands for `time.time()`; the source reads `message.date.timestamp()`
when the date is present. -/
def mkRecord (message : Message) (handler_name : Option String)
    (metadata : Option (List (String × String))) (now : Int) : MessageRecord :=
  { message_id := message.message_id
    chat_id := message.chat_id
    handler_name := (pyTruthyStr handler_name).getD "unknown"
    timestamp := message.date.getD now
    metadata := metadata.getD [] }

/-- Model of `MessageRegistry.register_message`.
With `max_messages_per_chat = 0` the Python code raises `IndexError` at
`self._registry[chat_id][0]` (deque empty); the model returns the head
option, so theorems assume `0 < max_messages_per_chat`. -/
def register_message (reg : MessageRegistry) (message : Message)
    (handler_name : Option String) (key : Option String)
    (metadata : Option (List (String × String))) (now : Int) :
    MessageRecord × MessageRegistry :=
  let record : MessageRecord := mkRecord message handler_name metadata now
  let fifo := fifoOf reg message.chat_id
  let old_record : Option MessageRecord :=
    if reg.max_messages_per_chat ≤ fifo.length then fifo.head? else none
  let newFifo := dequeAppend reg.max_messages_per_chat fifo record
  let reg1 : MessageRegistry :=
    { reg with registry := upsertA message.chat_id newFifo reg.registry }
  let reg2 :=
    match old_record with
    | some old => cleanup_record_references reg1 old
    | none => reg1
  let reg3 :=
    match pyTruthyStr key with
    | some k => { reg2 with key_registry := upsertA k record reg2.key_registry }
    | none => reg2
  let reg4 :=
    match pyTruthyStr handler_name with
    | some h =>
      let hlist := (lookupA h reg3.handler_registry).getD [] ++ [record]
      { reg3 with handler_registry := upsertA h hlist reg3.handler_registry }
    | none => reg3
  (record, reg4)

/-- Model of `MessageRegistry.get_last_message`: the newest (rightmost) record of the
chat's FIFO. -/
def get_last_message (reg : MessageRegistry) (chat_id : Int) : Option MessageRecord :=
  (fifoOf reg chat_id).getLast?

/-- Model of `MessageRegistry.get_by_key`. -/
def get_by_key (reg : MessageRegistry) (key : String) : Option MessageRecord :=
  lookupA key reg.key_registry

/-- One step of Python's stable `sorted(records, key=timestamp, reverse=True)`:
insert before the first element whose timestamp is not greater, so an
earlier-positioned element stays in front of equal-timestamp later ones. -/
def insertByTs (x : MessageRecord) : List MessageRecord → List MessageRecord
  | [] => [x]
  | y :: ys => if x.timestamp < y.timestamp then y :: insertByTs x ys else x :: y :: ys

/-- Stable descending-by-timestamp sort (the behaviour of Python `sorted`
with `reverse=True`). -/
def sortByTsDesc (l : List MessageRecord) : List MessageRecord :=
  l.foldr insertByTs []

/-- Model of `MessageRegistry.get_by_handler`.  The chat filter is guarded by the
truthiness check `if chat_id:` and the slice by `if limit:`. -/
def get_by_handler (reg : MessageRegistry) (handler_name : String)
    (chat_id : Option Int) (limit : Option Nat) : List MessageRecord :=
  let records := (lookupA handler_name reg.handler_registry).getD []
  let records :=
    match pyTruthyInt chat_id with
    | some c => records.filter (fun r => r.chat_id = c)
    | none => records
  let records := sortByTsDesc records
  match limit with
  | some n => if n = 0 then records else records.take n
  | none => records

/-- The editing hints of an `EditAnswer` consumed by
`find_message_to_edit`: direct id, correlation key, origin handler. -/
structure EditAnswer where
  message_id : Option Int
  message_key : Option String
  handler_name : Option String
  deriving DecidableEq, Repr

/-- Model of `MessageRegistry.find_message_to_edit`: the five-priority lookup. -/
def find_message_to_edit (reg : MessageRegistry) (answer : EditAnswer)
    (chat_id : Int) (handler_name : String) : Option Int :=
  match answer.message_id with
  | some mid => some mid
  | none =>
    let step2 : Option Int :=
      match answer.message_key with
      | some k =>
        match get_by_key reg k with
        | some record => if record.chat_id = chat_id then some record.message_id else none
        | none => none
      | none => none
    match step2 with
    | some m => some m
    | none =>
      let step3 : Option Int :=
        match answer.handler_name with
        | some h => ((get_by_handler reg h (some chat_id) none).head?).map (·.message_id)
        | none => none
      match step3 with
      | some m => some m
      | none =>
        match ((get_by_handler reg handler_name (some chat_id) none).head?).map
            (·.message_id) with
        | some m => some m
        | none => (get_last_message reg chat_id).map (·.message_id)

/-! ## Specification-side definitions for the edit-target lookup

The spec (and claims C1/C5) describes steps 3 and 4 of
`find_message_to_edit` as returning the "most recently registered" record
for a handler in a chat, with ties broken towards the later-inserted
record.  The definitions below state that reading literally, and an
amended reading that matches the code. -/

/-- Spec reading of "most recently registered record for handler `h` in
chat `c`": the last element, in registration order, of the handler index
restricted to the chat. -/
def lastRegisteredFor (reg : MessageRegistry) (h : String) (c : Int) :
    Option MessageRecord :=
  ((handlerAll reg h).filter (fun r => r.chat_id = c)).getLast?

/-- Claim-literal five-step lookup (claim C1 as stated, with steps 3 and 4
taking the most recently registered matching record). -/
def findEditTargetClaimed (reg : MessageRegistry) (answer : EditAnswer)
    (chat_id : Int) (handler_name : String) : Option Int :=
  match answer.message_id with
  | some mid => some mid
  | none =>
    let step2 : Option Int :=
      match answer.message_key with
      | some k =>
        match get_by_key reg k with
        | some record => if record.chat_id = chat_id then some record.message_id else none
        | none => none
      | none => none
    match step2 with
    | some m => some m
    | none =>
      let step3 : Option Int :=
        match answer.handler_name with
        | some h => (lastRegisteredFor reg h chat_id).map (·.message_id)
        | none => none
      match step3 with
      | some m => some m
      | none =>
        match (lastRegisteredFor reg handler_name chat_id).map (·.message_id) with
        | some m => some m
        | none => (get_last_message reg chat_id).map (·.message_id)

/-- First record carrying the maximal timestamp of the list: the record a
stable descending sort puts in front.  Earlier-registered records win
timestamp ties. -/
def argmaxFirst : List MessageRecord → Option MessageRecord
  | [] => none
  | x :: l =>
    match argmaxFirst l with
    | none => some x
    | some b => if x.timestamp < b.timestamp then some b else some x

/-- Amended five-step lookup: steps 3 and 4 return the maximal-timestamp
record (earliest-registered on ties) of the handler's records in the chat. -/
def findEditTargetAmended (reg : MessageRegistry) (answer : EditAnswer)
    (chat_id : Int) (handler_name : String) : Option Int :=
  match answer.message_id with
  | some mid => some mid
  | none =>
    let step2 : Option Int :=
      match answer.message_key with
      | some k =>
        match get_by_key reg k with
        | some record => if record.chat_id = chat_id then some record.message_id else none
        | none => none
      | none => none
    match step2 with
    | some m => some m
    | none =>
      let step3 : Option Int :=
        match answer.handler_name with
        | some h =>
          (argmaxFirst ((handlerAll reg h).filter (fun r => r.chat_id = chat_id))).map
            (·.message_id)
        | none => none
      match step3 with
      | some m => some m
      | none =>
        match (argmaxFirst ((handlerAll reg handler_name).filter
            (fun r => r.chat_id = chat_id))).map (·.message_id) with
        | some m => some m
        | none => (get_last_message reg chat_id).map (·.message_id)

/-- Inserting into a descending-sorted list: the head is whichever of the
inserted element and the old head has the larger timestamp, the old head
winning strict comparisons only. -/
theorem insertByTs_head (x : MessageRecord) (s : List MessageRecord) :
    (insertByTs x s).head? =
      some (match s.head? with
            | none => x
            | some y => if x.timestamp < y.timestamp then y else x) := by
  cases s with
  | nil => simp [insertByTs]
  | cons y ys =>
    by_cases h : x.timestamp < y.timestamp
    · cases hins : insertByTs x ys with
      | nil =>
        exfalso
        have := insertByTs_head x ys
        rw [hins] at this
        simp at this
      | cons z zs => simp [insertByTs, h, hins]
    · simp [insertByTs, h]

/-- Head of the stable descending sort: the first maximal-timestamp record. -/
theorem sortByTsDesc_head (l : List MessageRecord) :
    (sortByTsDesc l).head? = argmaxFirst l := by
  induction l with
  | nil => rfl
  | cons x l ih =>
    have hstep : sortByTsDesc (x :: l) = insertByTs x (sortByTsDesc l) := rfl
    rw [hstep, insertByTs_head, argmaxFirst, ← ih]
    cases hs : (sortByTsDesc l).head? with
    | none => simp
    | some y =>
      by_cases hxy : x.timestamp < y.timestamp <;> simp [hxy]

/-- Head of a by-handler lookup for a non-zero chat id: the
maximal-timestamp (earliest-registered on ties) record of the handler in
that chat. -/
theorem get_by_handler_head (reg : MessageRegistry) (h : String) (c : Int)
    (hc : c ≠ 0) :
    (get_by_handler reg h (some c) none).head? =
      argmaxFirst ((handlerAll reg h).filter (fun r => r.chat_id = c)) := by
  unfold get_by_handler handlerAll pyTruthyInt
  simp [hc, sortByTsDesc_head]

/-! ## Claim C1: the five-step edit-target lookup -/

/-- Registry refuting claim C1 as stated: handler "h" in chat 5 has a
record id 1 with timestamp 10 registered before a record id 2 with
timestamp 5.  "Most recently registered" is id 2, but the code sorts by
timestamp and picks id 1. -/
def regC1cex : MessageRegistry :=
  let r1 := (register_message (MessageRegistry.empty 5) ⟨1, 5, some 10⟩
    (some "h") none none 0).2
  (register_message r1 ⟨2, 5, some 5⟩ (some "h") none none 0).2

/-- Claim C1 counterexample: at `regC1cex` with no edit hints and current
handler "h", step 4 of the code returns id 1 (maximal timestamp), while
the claim's "most recently registered record for H in chat C" is id 2. -/
theorem c1_counterexample :
    find_message_to_edit regC1cex ⟨none, none, none⟩ 5 "h" = some 1 ∧
    findEditTargetClaimed regC1cex ⟨none, none, none⟩ 5 "h" = some 2 ∧
    ¬ find_message_to_edit regC1cex ⟨none, none, none⟩ 5 "h" =
        findEditTargetClaimed regC1cex ⟨none, none, none⟩ 5 "h" := by
  refine ⟨rfl, rfl, ?_⟩
  decide

/-- Claim C1 (amended): for every non-zero chat id, `find_message_to_edit`
is the five-step first-match lookup in which steps 3 and 4 return the
maximal-timestamp record of the handler in the chat (the earliest
registered on timestamp ties) rather than the most recently registered
one; steps 1, 2 and 5 are as claimed.  For chat id 0 the code's truthiness
check skips the chat restriction of steps 3 and 4. -/
theorem c1_edit_target_priority (reg : MessageRegistry) (answer : EditAnswer)
    (chat_id : Int) (handler_name : String) (hc : chat_id ≠ 0) :
    find_message_to_edit reg answer chat_id handler_name =
      findEditTargetAmended reg answer chat_id handler_name := by
  obtain ⟨mid, mkey, hname⟩ := answer
  unfold find_message_to_edit findEditTargetAmended
  cases hname with
  | none => simp only [get_by_handler_head reg handler_name chat_id hc]
  | some h =>
    simp only [get_by_handler_head reg handler_name chat_id hc,
      get_by_handler_head reg h chat_id hc]

/-- Witness for C1: the amended lookup applied at a concrete registry,
discharging the non-zero chat hypothesis. -/
theorem c1_edit_target_priority_witness :
    (5 : Int) ≠ 0 ∧
    find_message_to_edit regC1cex ⟨none, some "k", some "g"⟩ 5 "h" =
      findEditTargetAmended regC1cex ⟨none, some "k", some "g"⟩ 5 "h" :=
  ⟨by decide, c1_edit_target_priority regC1cex ⟨none, some "k", some "g"⟩ 5 "h"
    (by decide)⟩

/-! ## Claim C5: timestamp-tie breaking in "most recent" lookups -/

/-- Registry refuting claim C5 as stated: two records of handler "h" in
chat 5 share timestamp 7; id 1 was inserted before id 2. -/
def regC5cex : MessageRegistry :=
  let r1 := (register_message (MessageRegistry.empty 5) ⟨1, 5, some 7⟩
    (some "h") none none 0).2
  (register_message r1 ⟨2, 5, some 7⟩ (some "h") none none 0).2

/-- Claim C5 counterexample: both records of handler "h" carry timestamp
7; the by-handler lookup of step 4 returns the earlier-inserted id 1, not
the later-inserted id 2 the claim requires. -/
theorem c5_counterexample :
    (handlerAll regC5cex "h").map (·.timestamp) = [7, 7] ∧
    ((handlerAll regC5cex "h").filter (fun r => r.chat_id = 5)).getLast?.map
      (·.message_id) = some 2 ∧
    find_message_to_edit regC5cex ⟨none, none, none⟩ 5 "h" = some 1 := by
  refine ⟨rfl, rfl, rfl⟩

/-- Claim C5 (amended): in the by-handler lookups of steps 3 and 4, for a
non-zero chat id, the chosen record is the first-registered among those
with maximal timestamp — equal-timestamp ties are broken by insertion
order towards the earlier-inserted record; the chat-wide fallback of step
5 is the last-inserted record of the chat's FIFO regardless of timestamp. -/
theorem c5_tie_breaking (reg : MessageRegistry) (h : String) (c : Int)
    (hc : c ≠ 0) :
    (get_by_handler reg h (some c) none).head? =
      argmaxFirst ((handlerAll reg h).filter (fun r => r.chat_id = c)) ∧
    get_last_message reg c = (fifoOf reg c).getLast? :=
  ⟨get_by_handler_head reg h c hc, rfl⟩

/-- Witness for C5: the tie-breaking description applied at the concrete
tied registry. -/
theorem c5_tie_breaking_witness :
    (5 : Int) ≠ 0 ∧
    ((get_by_handler regC5cex "h" (some 5) none).head? =
      argmaxFirst ((handlerAll regC5cex "h").filter (fun r => r.chat_id = 5)) ∧
    get_last_message regC5cex 5 = (fifoOf regC5cex 5).getLast?) :=
  ⟨by decide, c5_tie_breaking regC5cex "h" 5 (by decide)⟩

/-! ## Dependency resolution (`src/botty/di/`)

Resolver functions are identified by a `Nat` (Python identity of the
callable); the value a call to resolver `fn` produces is given by an
environment `env : Nat → PyVal`.  `PyVal` is `Option Int`, with `none`
modelling Python `None`. -/

/-- Python values returned by resolver functions; `none` is Python `None`. -/
abbrev PyVal := Option Int

/-- Model of `Depends` (`di/markers.py`): the resolver callable (an
identity, `none` for `Depends(None)`) and the caching flag. -/
structure Depends where
  dependency : Option Nat
  use_cache : Bool
  deriving DecidableEq, Repr

/-- Model of `RequestScope` (`di/scope.py`): the per-request dependency
cache, whether a database provider is configured (`_provider`), the lazy
session (`_session`, an id once created) and the `_session_closed` flag.
`get_session_calls` instruments how often `provider.get_session()` ran and
`committed` whether `session.commit()` ran. -/
structure RequestScope where
  cache : List (Nat × PyVal)
  provider : Bool
  session : Option Nat
  session_closed : Bool
  get_session_calls : Nat
  committed : Bool
  deriving DecidableEq, Repr

/-- Model of `RequestScope.__init__`: empty cache, no session created. -/
def RequestScope.init (provider : Bool) : RequestScope :=
  ⟨[], provider, none, false, 0, false⟩

/-- Model of the `RequestScope.session` property: raises
`DatabaseNotConfiguredError` when no provider is set, otherwise creates
the session lazily on first access (each creation is one
`provider.get_session()` call). -/
def RequestScope.sessionAccess (s : RequestScope) : Except Unit (Nat × RequestScope) :=
  if s.provider = false then .error ()
  else
    match s.session with
    | some sid => .ok (sid, s)
    | none =>
      .ok (s.get_session_calls,
        { s with session := some s.get_session_calls,
                 get_session_calls := s.get_session_calls + 1 })

/-- Model of `RequestScope.get_dependency`: the cached value when caching
is enabled and the resolver is a cache key; Python `None` otherwise.  A
cached `None` is indistinguishable from a cache miss here. -/
def RequestScope.get_dependency (s : RequestScope) (dep : Depends) : PyVal :=
  if dep.use_cache then
    match dep.dependency with
    | some fn =>
      match lookupA fn s.cache with
      | some v => v
      | none => none
    | none => none
  else none

/-- Model of `RequestScope.cache_dependency`. -/
def RequestScope.cache_dependency (s : RequestScope) (fn : Nat) (v : PyVal) :
    RequestScope :=
  { s with cache := upsertA fn v s.cache }

/-- Model of `DependencyContainer._call_dependency` as far as claims C2 and
C8 need it: invoking resolver `fn` produces `env fn` and counts as one
invocation of `fn`; the nested parameter introspection performed inside
the source's `_call_dependency` is folded into `env`. -/
def call_dependency (env : Nat → PyVal) (fn : Nat) : PyVal × Nat :=
  (env fn, 1)

/-- Model of `DependencyContainer.resolve_dependency`: a marker without a
resolver is the fatal configuration error; otherwise a cache hit (enabled
and a non-`None` cached value) short-circuits, and a computed result is
re-cached when caching is enabled.  The returned `Nat` counts how many
times the underlying resolver ran during this call. -/
def resolve_dependency (env : Nat → PyVal) (dep : Depends) (scope : RequestScope) :
    Except Unit (PyVal × RequestScope × Nat) :=
  match dep.dependency with
  | none => .error ()
  | some fn =>
    let scopedv := scope.get_dependency dep
    if dep.use_cache ∧ scopedv.isSome then .ok (scopedv, scope, 0)
    else
      let result := (call_dependency env fn).1
      let scope' := if dep.use_cache then scope.cache_dependency fn result else scope
      .ok (result, scope', 1)

/-- Two consecutive `resolve_dependency` calls with the same marker in the
same scope, as in claim C2; the result is the total number of resolver
invocations (or `none` when resolution errored). -/
def resolveTwiceInvocations (env : Nat → PyVal) (dep : Depends)
    (scope : RequestScope) : Option Nat :=
  match resolve_dependency env dep scope with
  | .error _ => none
  | .ok (_, scope1, n1) =>
    match resolve_dependency env dep scope1 with
    | .error _ => none
    | .ok (_, _, n2) => some (n1 + n2)

/-- Looking a key up right after writing it finds the written value. -/
theorem lookupA_upsertA_self {α β : Type} [DecidableEq α] (k : α) (v : β)
    (l : List (α × β)) : lookupA k (upsertA k v l) = some v := by
  induction l with
  | nil => simp [upsertA, lookupA]
  | cons kv rest ih =>
    obtain ⟨k0, v0⟩ := kv
    by_cases h : k0 = k
    · subst h
      simp [upsertA, lookupA]
    · simp [upsertA, lookupA, h, ih]

/-- Writing one key leaves every other key's lookup unchanged. -/
theorem lookupA_upsertA_ne {α β : Type} [DecidableEq α] {k k' : α} (v : β)
    (l : List (α × β)) (hne : k' ≠ k) :
    lookupA k' (upsertA k v l) = lookupA k' l := by
  have hne' : ¬ k = k' := fun h => hne h.symm
  induction l with
  | nil => simp [upsertA, lookupA, hne']
  | cons kv rest ih =>
    obtain ⟨k0, v0⟩ := kv
    by_cases h : k0 = k
    · subst h
      simp [upsertA, lookupA, hne']
    · simp [upsertA, lookupA, h, ih]

/-! ## Claim C2: caching semantics of resolve_dependency -/

/-- Claim C2 counterexample: a resolver that returns Python `None`, marked
`use_cache = true`, is invoked again by a second resolve in the same scope
— the cache-hit test `scoped is not None` cannot see a cached `None` — so
the two resolves invoke it twice, not once as the claim states. -/
theorem c2_counterexample :
    resolveTwiceInvocations (fun _ => none) ⟨some 0, true⟩ (RequestScope.init false) =
      some 2 ∧
    ¬ resolveTwiceInvocations (fun _ => none) ⟨some 0, true⟩ (RequestScope.init false) =
      some 1 := by
  refine ⟨rfl, ?_⟩
  decide

/-- Claim C2 (amended): with `use_cache = true` and the marker not yet
cached, two resolves in one scope invoke the resolver exactly once
provided the resolver's result is not Python `None` (a `None` result is
never recognised as cached, so the resolver runs again on every resolve);
with `use_cache = false` the resolver runs exactly once per resolve call. -/
theorem c2_cache_invocations (env : Nat → PyVal) (fn : Nat) (scope : RequestScope)
    (hfresh : lookupA fn scope.cache = none) (hval : env fn ≠ none) :
    resolveTwiceInvocations env ⟨some fn, true⟩ scope = some 1 ∧
    resolveTwiceInvocations env ⟨some fn, false⟩ scope = some 2 := by
  constructor
  · simp [resolveTwiceInvocations, resolve_dependency, RequestScope.get_dependency,
      hfresh, call_dependency, RequestScope.cache_dependency, lookupA_upsertA_self,
      Option.isSome_iff_ne_none, hval]
  · simp [resolveTwiceInvocations, resolve_dependency, RequestScope.get_dependency,
      call_dependency]

/-- Environment for the C2 witness: every resolver returns 42. -/
def envC2 : Nat → PyVal := fun _ => some 42

/-- Witness for C2: the amended counting applied to a concrete non-`None`
resolver in a fresh scope. -/
theorem c2_cache_invocations_witness :
    lookupA 0 (RequestScope.init true).cache = none ∧ envC2 0 ≠ none ∧
    (resolveTwiceInvocations envC2 ⟨some 0, true⟩ (RequestScope.init true) = some 1 ∧
     resolveTwiceInvocations envC2 ⟨some 0, false⟩ (RequestScope.init true) = some 2) :=
  ⟨rfl, by decide, c2_cache_invocations envC2 0 (RequestScope.init true) rfl (by decide)⟩

/-! ## Answers and the response processor
(`src/botty/responses/`, `src/botty/routing/response_processor.py`) -/

/-- Common `BaseAnswer` fields the processor reads: the correlation key,
the handler-name override and the metadata. -/
structure AnswerBase where
  message_key : Option String
  handler_name : Option String
  metadata : Option (List (String × String))
  deriving DecidableEq, Repr

/-- The answer variants the pipeline distinguishes: `EditAnswer` is
special-cased by the processor, `EmptyAnswer` by the adapter, and every
other concrete answer type behaves like the plain `Answer` (one
`send_xxx` call), here represented by `answerV`. -/
inductive BAnswer
  | answerV (base : AnswerBase)
  | editV (base : AnswerBase) (message_id : Option Int)
  | emptyV (base : AnswerBase)
  deriving DecidableEq, Repr

/-- The shared `BaseAnswer` payload of an answer. -/
def BAnswer.base : BAnswer → AnswerBase
  | .answerV b => b
  | .editV b _ => b
  | .emptyV b => b

/-- Python `type(answer).__name__`. -/
def BAnswer.typeName : BAnswer → String
  | .answerV _ => "Answer"
  | .editV _ _ => "EditAnswer"
  | .emptyV _ => "EmptyAnswer"

/-- Failures the transport boundary can raise. -/
inductive TransportError
  | sendFailed
  | editFailed
  | bottyError
  deriving DecidableEq, Repr

/-- Model of the outbound transport port `TelegramBotClient`
(`ports/bot_client.py`): `send` and `edit` return a message descriptor or
`None` and may raise. -/
structure TelegramBotClient where
  send : Int → BAnswer → Except TransportError (Option Message)
  edit : Int → Option Int → BAnswer → Except TransportError (Option Message)

/-- A call made by the processor on the transport port. -/
inductive PortCall
  | sendCall (chat_id : Int) (answer : BAnswer)
  | editCall (chat_id : Int) (message_id : Option Int) (answer : BAnswer)
  deriving DecidableEq, Repr

/-- Model of `ResponseProcessingError` (the fields the source sets). -/
structure ResponseProcessingError where
  response_type : String
  handler_name : String
  deriving DecidableEq, Repr

/-- Model of `ResponseProcessor._process_single_response`: an `EditAnswer`
resolves a target and goes through the port's `edit`, everything else
through `send`; a `None` descriptor skips registration; any exception is
wrapped into a `ResponseProcessingError`.  Also returns the port calls
made. -/
def process_single_response (client : TelegramBotClient) (reg : MessageRegistry)
    (answer : BAnswer) (chat_id : Int) (handler_name : String) (now : Int) :
    Except ResponseProcessingError MessageRegistry × List PortCall :=
  match answer with
  | .editV base mid =>
    let target :=
      find_message_to_edit reg ⟨mid, base.message_key, base.handler_name⟩
        chat_id handler_name
    let calls := [PortCall.editCall chat_id target answer]
    match client.edit chat_id target answer with
    | .error _ => (.error ⟨answer.typeName, handler_name⟩, calls)
    | .ok none => (.ok reg, calls)
    | .ok (some m) =>
      (.ok (register_message reg m
          (some ((pyTruthyStr base.handler_name).getD handler_name))
          base.message_key base.metadata now).2, calls)
  | _ =>
    let calls := [PortCall.sendCall chat_id answer]
    match client.send chat_id answer with
    | .error _ => (.error ⟨answer.typeName, handler_name⟩, calls)
    | .ok none => (.ok reg, calls)
    | .ok (some m) =>
      (.ok (register_message reg m
          (some ((pyTruthyStr answer.base.handler_name).getD handler_name))
          answer.base.message_key answer.base.metadata now).2, calls)

/-- Model of `ResponseProcessor.process_async_generator`: drain the
handler's output in order; a failing item's `ResponseProcessingError` is
caught and logged, the registry keeps its previous state and the loop
continues with the next item. -/
def process_async_generator (client : TelegramBotClient) (answers : List BAnswer)
    (reg : MessageRegistry) (chat_id : Int) (handler_name : String) (now : Int) :
    MessageRegistry × List PortCall :=
  match answers with
  | [] => (reg, [])
  | a :: rest =>
    let step := process_single_response client reg a chat_id handler_name now
    let reg' := match step.1 with
      | .ok r => r
      | .error _ => reg
    let restRun := process_async_generator client rest reg' chat_id handler_name now
    (restRun.1, step.2 ++ restRun.2)

/-! ## The PTB outbound adapter (`src/botty/adapters/ptb_bot.py`) -/

/-- The Telegram operations the adapter can perform on the underlying
`Bot`. -/
inductive TGOp
  | sendMessage (chat_id : Int)
  | editMessageText (chat_id : Int) (message_id : Int)
  deriving DecidableEq, Repr

/-- The underlying python-telegram-bot `Bot`: each API call may fail.  The
returned Telegram message is given directly as the domain `Message`
(`Message.from_telegram` copies id, chat and date). -/
structure TGBot where
  send_message : Int → BAnswer → Except TransportError Message
  edit_message_text : Int → Int → BAnswer → Except TransportError Message

/-- Model of `PTBBotAdapter.send`: plain answers map to one `send_message`
call (every media variant behaves the same way and is represented by
`answerV`); `EmptyAnswer` and `EditAnswer` return `None` without any
Telegram call.  Also returns the Telegram operations performed. -/
def PTB_send (bot : TGBot) (chat_id : Int) (answer : BAnswer) :
    Except TransportError (Option Message) × List TGOp :=
  match answer with
  | .answerV _ =>
    match bot.send_message chat_id answer with
    | .ok m => (.ok (some m), [.sendMessage chat_id])
    | .error e => (.error e, [.sendMessage chat_id])
  | .emptyV _ => (.ok none, [])
  | .editV _ _ => (.ok none, [])

/-- Model of `PTBBotAdapter.edit`: a non-`EditAnswer` raises `BottyError`;
a missing target falls back to a fresh `send_message` whose descriptor is
returned; a successful `edit_message_text` falls off the end of the
function and returns `None`; a failing edit falls back to `send_message`
and returns that descriptor. -/
def PTB_edit (bot : TGBot) (chat_id : Int) (message_id : Option Int)
    (answer : BAnswer) : Except TransportError (Option Message) × List TGOp :=
  match answer with
  | .editV _ _ =>
    match message_id with
    | none =>
      match bot.send_message chat_id answer with
      | .ok m => (.ok (some m), [.sendMessage chat_id])
      | .error e => (.error e, [.sendMessage chat_id])
    | some mid =>
      match bot.edit_message_text chat_id mid answer with
      | .ok _ => (.ok none, [.editMessageText chat_id mid])
      | .error _ =>
        match bot.send_message chat_id answer with
        | .ok m => (.ok (some m), [.editMessageText chat_id mid, .sendMessage chat_id])
        | .error e => (.error e, [.editMessageText chat_id mid, .sendMessage chat_id])
  | _ => (.error .bottyError, [])

/-- The transport port backed by the PTB adapter. -/
def PTBclient (bot : TGBot) : TelegramBotClient :=
  ⟨fun c a => (PTB_send bot c a).1, fun c m a => (PTB_edit bot c m a).1⟩

/-! ## Claim C6: per-item error isolation in the processor -/

/-- Processing a concatenated output: the second part starts from the
first part's final registry, port calls accumulate in order. -/
theorem process_async_generator_append (client : TelegramBotClient)
    (xs ys : List BAnswer) (reg : MessageRegistry) (c : Int) (h : String)
    (now : Int) :
    process_async_generator client (xs ++ ys) reg c h now =
      ((process_async_generator client ys
          (process_async_generator client xs reg c h now).1 c h now).1,
       (process_async_generator client xs reg c h now).2 ++
         (process_async_generator client ys
           (process_async_generator client xs reg c h now).1 c h now).2) := by
  induction xs generalizing reg with
  | nil => simp [process_async_generator]
  | cons a rest ih =>
    simp only [List.cons_append, process_async_generator, List.append_eq]
    rw [ih]
    simp [List.append_assoc]

/-- Claim C6: when processing item `a` (after a prefix `xs` of the same
handler output) raises, the error is caught: the registry keeps the state
reached after `xs`, the failing item's port activity is recorded, and
every following item of `ys` is still requested and processed exactly as
if starting from that state. -/
theorem c6_error_isolation (client : TelegramBotClient) (xs ys : List BAnswer)
    (a : BAnswer) (reg : MessageRegistry) (c : Int) (h : String) (now : Int)
    (e : ResponseProcessingError)
    (hfail : (process_single_response client
        (process_async_generator client xs reg c h now).1 a c h now).1 = .error e) :
    process_async_generator client (xs ++ a :: ys) reg c h now =
      ((process_async_generator client ys
          (process_async_generator client xs reg c h now).1 c h now).1,
       (process_async_generator client xs reg c h now).2 ++
         ((process_single_response client
             (process_async_generator client xs reg c h now).1 a c h now).2 ++
          (process_async_generator client ys
            (process_async_generator client xs reg c h now).1 c h now).2)) := by
  rw [process_async_generator_append]
  have hstep :
      process_async_generator client (a :: ys)
        (process_async_generator client xs reg c h now).1 c h now =
        ((process_async_generator client ys
            (process_async_generator client xs reg c h now).1 c h now).1,
         (process_single_response client
             (process_async_generator client xs reg c h now).1 a c h now).2 ++
           (process_async_generator client ys
             (process_async_generator client xs reg c h now).1 c h now).2) := by
    simp only [process_async_generator]
    rw [hfail]
  rw [hstep]

/-- Transport for the C6 witness: every send and every edit raises. -/
def botC6 : TGBot :=
  ⟨fun _ _ => .error .sendFailed, fun _ _ _ => .error .editFailed⟩

/-- Payload shared by the concrete witnesses. -/
def baseW : AnswerBase := ⟨none, none, none⟩

/-- Witness for C6: a failing plain send is followed by an `EmptyAnswer`
that is still processed. -/
theorem c6_error_isolation_witness :
    (process_single_response (PTBclient botC6)
        (process_async_generator (PTBclient botC6) [] (MessageRegistry.empty 3)
          1 "h" 0).1 (.answerV baseW) 1 "h" 0).1 =
      .error ⟨"Answer", "h"⟩ ∧
    process_async_generator (PTBclient botC6)
        ([] ++ .answerV baseW :: [.emptyV baseW]) (MessageRegistry.empty 3) 1 "h" 0 =
      ((process_async_generator (PTBclient botC6) [.emptyV baseW]
          (process_async_generator (PTBclient botC6) [] (MessageRegistry.empty 3)
            1 "h" 0).1 1 "h" 0).1,
       (process_async_generator (PTBclient botC6) [] (MessageRegistry.empty 3)
           1 "h" 0).2 ++
         ((process_single_response (PTBclient botC6)
             (process_async_generator (PTBclient botC6) [] (MessageRegistry.empty 3)
               1 "h" 0).1 (.answerV baseW) 1 "h" 0).2 ++
          (process_async_generator (PTBclient botC6) [.emptyV baseW]
            (process_async_generator (PTBclient botC6) [] (MessageRegistry.empty 3)
              1 "h" 0).1 1 "h" 0).2)) :=
  ⟨rfl, c6_error_isolation (PTBclient botC6) [] [.emptyV baseW] (.answerV baseW)
    (MessageRegistry.empty 3) 1 "h" 0 ⟨"Answer", "h"⟩ rfl⟩

/-! ## Claim C7: EmptyAnswer handling -/

/-- Transport for the C7 counterexample (its behaviour is irrelevant to
the recorded port call). -/
def botC7 : TGBot :=
  ⟨fun c _ => .ok ⟨1, c, some 0⟩, fun c _ _ => .ok ⟨2, c, some 0⟩⟩

/-- Claim C7 counterexample: processing an `EmptyAnswer` does perform a
`send` call on the outbound transport port — the processor passes every
non-edit answer to `client.send`; only the adapter underneath declines to
do anything with it. -/
theorem c7_counterexample :
    (process_single_response (PTBclient botC7) (MessageRegistry.empty 3)
        (.emptyV baseW) 1 "h" 0).2 = [PortCall.sendCall 1 (.emptyV baseW)] ∧
    ¬ (process_single_response (PTBclient botC7) (MessageRegistry.empty 3)
        (.emptyV baseW) 1 "h" 0).2 = [] := by
  refine ⟨rfl, ?_⟩
  decide

/-- Claim C7 (amended): an `EmptyAnswer` is passed to the port's `send`
(one port call), the PTB adapter performs no underlying Telegram
operation for it and returns `None`, and consequently no record is
registered — the registry is returned unchanged. -/
theorem c7_empty_answer (bot : TGBot) (reg : MessageRegistry) (b : AnswerBase)
    (c : Int) (h : String) (now : Int) :
    process_single_response (PTBclient bot) reg (.emptyV b) c h now =
      (.ok reg, [PortCall.sendCall c (.emptyV b)]) ∧
    PTB_send bot c (.emptyV b) = (.ok none, []) :=
  ⟨rfl, rfl⟩

/-! ## Claim C10: a successful edit returns no descriptor -/

/-- Claim C10: when `edit_message_text` succeeds, `PTBBotAdapter.edit`
returns `None` (the function body has no return statement on that path),
so the processor registers nothing for a successfully edited message; the
no-target path and the edit-failure path return the fallback send's
descriptor instead. -/
theorem c10_edit_success_returns_none (bot : TGBot) (reg : MessageRegistry)
    (base : AnswerBase) (emid : Option Int) (chat : Int) (h : String) (now : Int)
    (t t' : Int) (m m2 m3 : Message) (e : TransportError)
    (htarget : find_message_to_edit reg ⟨emid, base.message_key, base.handler_name⟩
      chat h = some t)
    (hedit : bot.edit_message_text chat t (.editV base emid) = .ok m)
    (hsend : bot.send_message chat (.editV base emid) = .ok m2)
    (hedit' : bot.edit_message_text chat t' (.editV base emid) = .error e)
    (hsend' : bot.send_message chat (.editV base emid) = .ok m3) :
    PTB_edit bot chat (some t) (.editV base emid) =
      (.ok none, [.editMessageText chat t]) ∧
    process_single_response (PTBclient bot) reg (.editV base emid) chat h now =
      (.ok reg, [PortCall.editCall chat (some t) (.editV base emid)]) ∧
    PTB_edit bot chat none (.editV base emid) =
      (.ok (some m2), [.sendMessage chat]) ∧
    PTB_edit bot chat (some t') (.editV base emid) =
      (.ok (some m3), [.editMessageText chat t', .sendMessage chat]) := by
  refine ⟨?_, ?_, ?_, ?_⟩
  · simp [PTB_edit, hedit]
  · simp [process_single_response, htarget, PTBclient, PTB_edit, hedit]
  · simp [PTB_edit, hsend]
  · simp [PTB_edit, hedit', hsend']

/-- Transport for the C10 witness: editing message 43 fails, every other
edit succeeds, sends succeed. -/
def botC10 : TGBot :=
  ⟨fun c _ => .ok ⟨77, c, some 5⟩,
   fun c mid _ => if mid = 43 then .error .editFailed else .ok ⟨mid, c, some 6⟩⟩

/-- Witness for C10: a direct-id edit against a concrete transport. -/
theorem c10_edit_success_returns_none_witness :
    PTB_edit botC10 1 (some 42) (.editV baseW (some 42)) =
      (.ok none, [.editMessageText 1 42]) ∧
    process_single_response (PTBclient botC10) (MessageRegistry.empty 3)
        (.editV baseW (some 42)) 1 "h" 0 =
      (.ok (MessageRegistry.empty 3), [PortCall.editCall 1 (some 42) (.editV baseW (some 42))]) ∧
    PTB_edit botC10 1 none (.editV baseW (some 42)) =
      (.ok (some ⟨77, 1, some 5⟩), [.sendMessage 1]) ∧
    PTB_edit botC10 1 (some 43) (.editV baseW (some 42)) =
      (.ok (some ⟨77, 1, some 5⟩), [.editMessageText 1 43, .sendMessage 1]) :=
  c10_edit_success_returns_none botC10 (MessageRegistry.empty 3) baseW (some 42)
    1 "h" 0 42 43 ⟨42, 1, some 6⟩ ⟨77, 1, some 5⟩ ⟨77, 1, some 5⟩ .editFailed
    rfl rfl rfl rfl rfl

/-! ## Handler resolution and the router wrapper
(`src/botty/di/resolver.py`, `src/botty/routing/router.py`) -/

/-- A handler parameter's annotation: a `Depends` marker, one of the
built-in injectables (`Update`, `Context`, `ContextProtocol`, `Session`),
a service or repository capability class, some unrelated type, or no
annotation at all. -/
inductive Annot
  | noAnn
  | dependsA (dep : Depends)
  | updateA
  | contextA
  | contextProtocolA
  | sessionA
  | serviceA (id : Nat)
  | repositoryA (id : Nat)
  | otherA (id : Nat)
  deriving DecidableEq, Repr

/-- Model of `_extract_depends` (`di/utils.py`). -/
def extract_depends : Annot → Option Depends
  | .dependsA dep => some dep
  | _ => none

/-- Values bound to handler parameters. -/
inductive Val
  | updateV
  | contextV
  | sessionV (sid : Nat)
  | serviceV (id : Nat)
  | repoV (id : Nat) (sid : Nat)
  | resolvedV (v : PyVal)
  deriving DecidableEq, Repr

/-- Model of `DependencyContainer._inject_basic_dependencies`: built-in
injectables bind scope values (the session lazily, possibly raising
`DatabaseNotConfiguredError`), a service binds the container singleton, a
repository a fresh instance holding the scope's session; anything else
yields Python `None`.  An absent annotation is included here with the
`None` outcome: the source skips the call in that case but reaches the
same raise site. -/
def inject_basic_dependencies (annot : Annot) (scope : RequestScope) :
    Except Unit (Option Val × RequestScope) :=
  match annot with
  | .updateA => .ok (some .updateV, scope)
  | .contextA => .ok (some .contextV, scope)
  | .contextProtocolA => .ok (some .contextV, scope)
  | .sessionA =>
    match scope.sessionAccess with
    | .error _ => .error ()
    | .ok (sid, scope') => .ok (some (.sessionV sid), scope')
  | .serviceA id => .ok (some (.serviceV id), scope)
  | .repositoryA id =>
    match scope.sessionAccess with
    | .error _ => .error ()
    | .ok (sid, scope') => .ok (some (.repoV id sid), scope')
  | _ => .ok (none, scope)

/-- A handler parameter (name and annotation). -/
structure Param where
  name : String
  annot : Annot
  deriving DecidableEq, Repr

/-- A handler's introspected signature. -/
structure HandlerSig where
  name : String
  params : List Param
  deriving DecidableEq, Repr

/-- The `DependencyResolutionError` shapes `resolve_handler` raises: the
re-raised marker-without-resolver error (which carries no handler/param
context), the "annotation does not contain Depends" error and the
rewrapped database-not-configured error (both naming handler and
parameter). -/
inductive ResolutionErrorKind
  | dependencyNotProvided
  | noDependsMarker (handler_name parameter_name : String)
  | databaseNotConfigured (handler_name parameter_name : String)
  deriving DecidableEq, Repr

/-- One iteration of the parameter loop of
`DependencyResolver.resolve_handler`: a `Depends` marker delegates to the
container (its no-resolver error is re-raised as-is), otherwise the
built-in injection is attempted — a raised `DatabaseNotConfiguredError`
is rewrapped naming handler and parameter, and a parameter with no
binding at all raises the "annotation does not contain Depends" error. -/
def resolve_one_param (env : Nat → PyVal) (handler_name : String) (p : Param)
    (scope : RequestScope) : Except ResolutionErrorKind (Val × RequestScope) :=
  match extract_depends p.annot with
  | some dep =>
    match resolve_dependency env dep scope with
    | .error _ => .error .dependencyNotProvided
    | .ok (v, scope', _) => .ok (.resolvedV v, scope')
  | none =>
    match inject_basic_dependencies p.annot scope with
    | .error _ => .error (.databaseNotConfigured handler_name p.name)
    | .ok (some v, scope') => .ok (v, scope')
    | .ok (none, _) => .error (.noDependsMarker handler_name p.name)

/-- Model of the parameter loop of `DependencyResolver.resolve_handler`:
resolve each parameter in order, accumulating the keyword arguments;
the first failing parameter aborts the whole resolution. -/
def resolve_params (env : Nat → PyVal) (handler_name : String) :
    List Param → RequestScope → List (String × Val) →
    Except ResolutionErrorKind (List (String × Val) × RequestScope)
  | [], scope, acc => .ok (acc, scope)
  | p :: rest, scope, acc =>
    match resolve_one_param env handler_name p scope with
    | .error e => .error e
    | .ok (v, scope') =>
      resolve_params env handler_name rest scope' (acc ++ [(p.name, v)])

/-- Model of `DependencyResolver.resolve_handler`. -/
def resolve_handler (env : Nat → PyVal) (sig : HandlerSig) (scope : RequestScope) :
    Except ResolutionErrorKind (List (String × Val) × RequestScope) :=
  resolve_params env sig.name sig.params scope []

/-- Model of `Router._wrap_function`: dependencies are resolved first;
only on success does the handler run (`body` abstracts the generator) and
its output reach the response processor.  The second component is the
list of port calls the invocation performed. -/
def wrap_function (env : Nat → PyVal) (client : TelegramBotClient)
    (reg : MessageRegistry) (sig : HandlerSig)
    (body : List (String × Val) → List BAnswer) (scope : RequestScope)
    (chat_id : Int) (now : Int) :
    Except ResolutionErrorKind MessageRegistry × List PortCall :=
  match resolve_handler env sig scope with
  | .error e => (.error e, [])
  | .ok (kwargs, _) =>
    let run := process_async_generator client (body kwargs) reg chat_id sig.name now
    (.ok run.1, run.2)

/-- Resolution over a split parameter list: the tail continues from the
state the first part reached. -/
theorem resolve_params_append (env : Nat → PyVal) (hn : String)
    (pre rest : List Param) (scope : RequestScope) (acc : List (String × Val)) :
    resolve_params env hn (pre ++ rest) scope acc =
      (match resolve_params env hn pre scope acc with
       | .error e => .error e
       | .ok (acc', scope') => resolve_params env hn rest scope' acc') := by
  induction pre generalizing scope acc with
  | nil => rfl
  | cons p ps ih =>
    show resolve_params env hn (p :: (ps ++ rest)) scope acc = _
    simp only [resolve_params]
    cases hone : resolve_one_param env hn p scope with
    | error e => rfl
    | ok r =>
      obtain ⟨v, scope'⟩ := r
      exact ih scope' (acc ++ [(p.name, v)])

/-- An annotation that is neither a built-in injectable, nor a
service/repository capability, nor a `Depends` marker: an unrelated type
or no annotation at all. -/
def unresolvableAnnot (a : Annot) : Prop :=
  a = .noAnn ∨ ∃ i, a = .otherA i

/-- Claim C8: if some handler parameter `p` carries an unresolvable
annotation and every parameter before it resolves, the whole invocation
aborts with a `DependencyResolutionError` naming the handler and `p`, and
no call is made on the outbound transport port. -/
theorem c8_unresolvable_parameter (env : Nat → PyVal)
    (client : TelegramBotClient) (reg : MessageRegistry) (sig : HandlerSig)
    (body : List (String × Val) → List BAnswer) (scope : RequestScope)
    (chat_id : Int) (now : Int) (pre post : List Param) (p : Param)
    (acc : List (String × Val)) (scope' : RequestScope)
    (hparams : sig.params = pre ++ p :: post)
    (hbad : unresolvableAnnot p.annot)
    (hpre : resolve_params env sig.name pre scope [] = .ok (acc, scope')) :
    wrap_function env client reg sig body scope chat_id now =
      (.error (.noDependsMarker sig.name p.name), []) := by
  unfold wrap_function resolve_handler
  rw [hparams, resolve_params_append, hpre]
  rcases hbad with hb | ⟨i, hb⟩ <;>
    simp [resolve_params, resolve_one_param, extract_depends,
      inject_basic_dependencies, hb]

/-- Handler signature for the C8 witness: a well-formed `update` parameter
followed by one with an unrelated annotation. -/
def sigC8 : HandlerSig :=
  ⟨"my_handler", [⟨"update", .updateA⟩, ⟨"bad_param", .otherA 7⟩]⟩

/-- Witness for C8: dispatching `sigC8` errors, names handler and
parameter, and makes no port call. -/
theorem c8_unresolvable_parameter_witness :
    sigC8.params = [⟨"update", .updateA⟩] ++ ⟨"bad_param", .otherA 7⟩ :: [] ∧
    unresolvableAnnot (Annot.otherA 7) ∧
    wrap_function envC2 (PTBclient botC7) (MessageRegistry.empty 3) sigC8
        (fun _ => [.answerV baseW]) (RequestScope.init true) 1 0 =
      (.error (.noDependsMarker "my_handler" "bad_param"), []) :=
  ⟨rfl, Or.inr ⟨7, rfl⟩,
    c8_unresolvable_parameter envC2 (PTBclient botC7) (MessageRegistry.empty 3)
      sigC8 (fun _ => [.answerV baseW]) (RequestScope.init true) 1 0
      [⟨"update", .updateA⟩] [] ⟨"bad_param", .otherA 7⟩
      [("update", Val.updateV)] (RequestScope.init true)
      rfl (Or.inr ⟨7, rfl⟩) rfl⟩

/-! ## Claim C9: session lifecycle
(`di/scope.py` and `Router.request_scope` in `routing/router.py`) -/

/-- Model of `RequestScope.close`: close the session if one was created. -/
def RequestScope.close (s : RequestScope) : RequestScope :=
  match s.session with
  | some _ => { s with session_closed := true }
  | none => s

/-- Model of `RequestScope.commit`: commit if a session exists. -/
def RequestScope.commit (s : RequestScope) : RequestScope :=
  match s.session with
  | some _ => { s with committed := true }
  | none => s

/-- Abstract steps a handler invocation performs inside the request scope:
access the scope's session (via dependency resolution or directly), do
work that does not touch the session, or raise an exception. -/
inductive BodyStep
  | useSession
  | otherWork
  | raiseStep
  deriving DecidableEq, Repr

/-- Run the invocation body inside the scope: `raiseStep` aborts with an
exception, as does a session access without a configured provider; the
first component is `true` when the body completed normally. -/
def run_body : List BodyStep → RequestScope → Bool × RequestScope
  | [], s => (true, s)
  | .otherWork :: rest, s => run_body rest s
  | .raiseStep :: _, s => (false, s)
  | .useSession :: rest, s =>
    match s.sessionAccess with
    | .error _ => (false, s)
    | .ok (_, s') => run_body rest s'

/-- Model of `Router.request_scope` (the `asynccontextmanager`): create
the scope, run the body; `scope.commit()` runs on the success path only,
`scope.close()` on every exit path (the `finally` block). -/
def request_scope_run (provider : Bool) (body : List BodyStep) :
    Bool × RequestScope :=
  let scope := RequestScope.init provider
  let r := run_body body scope
  if r.1 then (true, r.2.commit.close) else (false, r.2.close)

/-- Running the body never commits, never closes and keeps the provider. -/
theorem run_body_preserves (body : List BodyStep) (s : RequestScope) :
    (run_body body s).2.committed = s.committed ∧
    (run_body body s).2.session_closed = s.session_closed ∧
    (run_body body s).2.provider = s.provider := by
  induction body generalizing s with
  | nil => exact ⟨rfl, rfl, rfl⟩
  | cons step rest ih =>
    cases step with
    | otherWork => exact ih s
    | raiseStep => exact ⟨rfl, rfl, rfl⟩
    | useSession =>
      cases hp : s.provider with
      | false => simp [run_body, RequestScope.sessionAccess, hp]
      | true =>
        cases hs : s.session with
        | some sid =>
          simpa [run_body, RequestScope.sessionAccess, hp, hs] using ih s
        | none =>
          simpa [run_body, RequestScope.sessionAccess, hp, hs] using ih _

/-- The session-call counter counts exactly whether a session exists. -/
theorem run_body_calls (body : List BodyStep) (s : RequestScope)
    (hinv : s.get_session_calls = (if s.session.isSome then 1 else 0)) :
    (run_body body s).2.get_session_calls =
      (if (run_body body s).2.session.isSome then 1 else 0) := by
  induction body generalizing s with
  | nil => exact hinv
  | cons step rest ih =>
    cases step with
    | otherWork => exact ih s hinv
    | raiseStep => exact hinv
    | useSession =>
      cases hp : s.provider with
      | false => simpa [run_body, RequestScope.sessionAccess, hp] using hinv
      | true =>
        cases hs : s.session with
        | some sid =>
          simpa [run_body, RequestScope.sessionAccess, hp, hs] using ih s hinv
        | none =>
          have hnext := ih ⟨s.cache, s.provider, some s.get_session_calls,
            s.session_closed, s.get_session_calls + 1, s.committed⟩
            (by simp [hinv, hs])
          simpa [run_body, RequestScope.sessionAccess, hp, hs] using hnext

/-- A body that never touches the session leaves the scope untouched. -/
theorem run_body_no_session (body : List BodyStep) (s : RequestScope)
    (hno : BodyStep.useSession ∉ body) : (run_body body s).2 = s := by
  induction body with
  | nil => rfl
  | cons step rest ih =>
    cases step with
    | otherWork =>
      exact ih (fun hmem => hno (List.mem_cons_of_mem _ hmem))
    | raiseStep => rfl
    | useSession => exact absurd (List.mem_cons_self _ _) hno

/-- Closing keeps the session, the call counter and the commit flag. -/
theorem close_fields (s : RequestScope) :
    (RequestScope.close s).get_session_calls = s.get_session_calls ∧
    (RequestScope.close s).session = s.session ∧
    (RequestScope.close s).committed = s.committed := by
  cases hs : s.session <;> simp [RequestScope.close, hs]

/-- Closing marks a created session closed. -/
theorem close_closes (s : RequestScope) (h : s.session.isSome) :
    (RequestScope.close s).session_closed = true := by
  cases hs : s.session with
  | some sid => simp [RequestScope.close, hs]
  | none => rw [hs] at h; simp at h

/-- Committing keeps the session, the call counter and the closed flag,
and sets the commit flag exactly when a session exists. -/
theorem commit_fields (s : RequestScope) :
    (RequestScope.commit s).get_session_calls = s.get_session_calls ∧
    (RequestScope.commit s).session = s.session ∧
    (RequestScope.commit s).session_closed = s.session_closed ∧
    (RequestScope.commit s).committed = (s.committed || s.session.isSome) := by
  cases hs : s.session <;> simp [RequestScope.commit, hs]

/-- Claim C9: in every invocation, `get_session` is called at most once —
exactly once when a session was materialised and never when the session
was never accessed (laziness); a created session is closed on both the
success and the exception path; and the commit happens exactly on the
successful path of an invocation that created a session. -/
theorem c9_session_lifecycle (provider : Bool) (body : List BodyStep) :
    (request_scope_run provider body).2.get_session_calls ≤ 1 ∧
    ((request_scope_run provider body).2.get_session_calls = 1 ↔
      (request_scope_run provider body).2.session.isSome) ∧
    (BodyStep.useSession ∉ body →
      (request_scope_run provider body).2.get_session_calls = 0) ∧
    ((request_scope_run provider body).2.session.isSome →
      (request_scope_run provider body).2.session_closed = true) ∧
    ((request_scope_run provider body).2.committed = true ↔
      ((request_scope_run provider body).1 = true ∧
        (request_scope_run provider body).2.session.isSome)) := by
  have hinv0 : (RequestScope.init provider).get_session_calls =
      (if (RequestScope.init provider).session.isSome then 1 else 0) := rfl
  have hcalls := run_body_calls body (RequestScope.init provider) hinv0
  have hpres := run_body_preserves body (RequestScope.init provider)
  unfold request_scope_run
  by_cases hr : (run_body body (RequestScope.init provider)).1 = true
  · simp only [hr, if_true]
    set t := (run_body body (RequestScope.init provider)).2 with ht
    obtain ⟨hcf, hcs, hcc⟩ := close_fields t.commit
    obtain ⟨hmf, hms, hmc, hmm⟩ := commit_fields t
    refine ⟨?_, ?_, ?_, ?_, ?_⟩
    · rw [hcf, hmf, hcalls]
      split <;> simp
    · rw [hcf, hmf, hcalls, hcs, hms]
      split <;> simp_all
    · intro hno
      rw [hcf, hmf, ht, run_body_no_session body _ hno]
      rfl
    · intro hsome
      rw [hcs, hms] at hsome
      exact close_closes t.commit (by rw [hms]; exact hsome)
    · rw [hcc, hmm, hcs, hms, hpres.1]
      cases hts : t.session.isSome <;> simp [hts, RequestScope.init]
  · simp only [hr, if_false, Bool.false_eq_true, ite_false]
    set t := (run_body body (RequestScope.init provider)).2 with ht
    obtain ⟨hcf, hcs, hcc⟩ := close_fields t
    refine ⟨?_, ?_, ?_, ?_, ?_⟩
    · rw [hcf, hcalls]
      split <;> simp
    · rw [hcf, hcalls, hcs]
      split <;> simp_all
    · intro hno
      rw [hcf, ht, run_body_no_session body _ hno]
      rfl
    · intro hsome
      rw [hcs] at hsome
      exact close_closes t hsome
    · rw [hcc, hpres.1]
      simp [RequestScope.init]

/-- Witness for C9: a body that uses the session once with a configured
provider, evaluated concretely. -/
theorem c9_session_lifecycle_witness :
    (request_scope_run true [.useSession, .otherWork]).2.get_session_calls ≤ 1 ∧
    ((request_scope_run true [.useSession, .otherWork]).2.get_session_calls = 1 ↔
      (request_scope_run true [.useSession, .otherWork]).2.session.isSome) ∧
    (BodyStep.useSession ∉ ([.useSession, .otherWork] : List BodyStep) →
      (request_scope_run true [.useSession, .otherWork]).2.get_session_calls = 0) ∧
    ((request_scope_run true [.useSession, .otherWork]).2.session.isSome →
      (request_scope_run true [.useSession, .otherWork]).2.session_closed = true) ∧
    ((request_scope_run true [.useSession, .otherWork]).2.committed = true ↔
      ((request_scope_run true [.useSession, .otherWork]).1 = true ∧
        (request_scope_run true [.useSession, .otherWork]).2.session.isSome)) :=
  c9_session_lifecycle true [.useSession, .otherWork]

/-! ## Association-list and multiplicity lemmas for the registry proofs -/

section AssocLemmas

variable {α β : Type} [DecidableEq α]

theorem lookupA_eq_none_of_not_mem_keys {k : α} {l : List (α × β)}
    (h : k ∉ l.map Prod.fst) : lookupA k l = none := by
  induction l with
  | nil => rfl
  | cons kv rest ih =>
    obtain ⟨k0, v0⟩ := kv
    simp only [List.map_cons, List.mem_cons] at h
    push_neg at h
    have hne : ¬ k0 = k := fun he => h.1 he.symm
    simp only [lookupA, if_neg hne]
    exact ih h.2

theorem lookupA_mem {k : α} {v : β} {l : List (α × β)}
    (h : lookupA k l = some v) : (k, v) ∈ l := by
  induction l with
  | nil => simp [lookupA] at h
  | cons kv rest ih =>
    obtain ⟨k0, v0⟩ := kv
    by_cases he : k0 = k
    · subst he
      simp only [lookupA, if_pos rfl] at h
      cases h
      exact List.mem_cons_self _ _
    · simp only [lookupA, if_neg he] at h
      exact List.mem_cons_of_mem _ (ih h)

theorem lookupA_eq_of_mem_nodup {k : α} {v : β} {l : List (α × β)}
    (hnd : (l.map Prod.fst).Nodup) (hmem : (k, v) ∈ l) :
    lookupA k l = some v := by
  induction l with
  | nil => simp at hmem
  | cons kv rest ih =>
    obtain ⟨k0, v0⟩ := kv
    simp only [List.map_cons, List.nodup_cons] at hnd
    rcases List.mem_cons.mp hmem with heq | hmem2
    · cases heq
      simp [lookupA]
    · have hk : ¬ k0 = k := by
        intro he
        subst he
        exact hnd.1 (List.mem_map.mpr ⟨(k0, v), hmem2, rfl⟩)
      simp only [lookupA, if_neg hk]
      exact ih hnd.2 hmem2

theorem mem_upsertA {x : α × β} {k : α} {v : β} {l : List (α × β)}
    (h : x ∈ upsertA k v l) : x = (k, v) ∨ x ∈ l := by
  induction l with
  | nil => simpa [upsertA] using h
  | cons kv rest ih =>
    obtain ⟨k0, v0⟩ := kv
    by_cases he : k0 = k
    · subst he
      simp only [upsertA, if_true, eq_self_iff_true, List.mem_cons, ite_true] at h
      rcases h with h1 | h1
      · exact Or.inl h1
      · exact Or.inr (List.mem_cons_of_mem _ h1)
    · simp only [upsertA, if_neg he, List.mem_cons] at h
      rcases h with h1 | h1
      · exact Or.inr (h1 ▸ List.mem_cons_self _ _)
      · rcases ih h1 with h2 | h2
        · exact Or.inl h2
        · exact Or.inr (List.mem_cons_of_mem _ h2)

theorem keys_upsertA_nodup {k : α} {v : β} {l : List (α × β)}
    (hnd : (l.map Prod.fst).Nodup) :
    ((upsertA k v l).map Prod.fst).Nodup := by
  induction l with
  | nil => simp [upsertA]
  | cons kv rest ih =>
    obtain ⟨k0, v0⟩ := kv
    simp only [List.map_cons, List.nodup_cons] at hnd
    by_cases he : k0 = k
    · subst he
      have hstep : upsertA k0 v ((k0, v0) :: rest) = (k0, v) :: rest := by
        simp [upsertA]
      rw [hstep, List.map_cons, List.nodup_cons]
      exact ⟨hnd.1, hnd.2⟩
    · have hrest := ih hnd.2
      have hk0 : k0 ∉ (upsertA k v rest).map Prod.fst := by
        intro hk0m
        rcases List.mem_map.mp hk0m with ⟨y, hy, hyk⟩
        rcases mem_upsertA hy with rfl | hy2
        · exact he hyk.symm
        · exact hnd.1 (List.mem_map.mpr ⟨y, hy2, hyk⟩)
      simp only [upsertA, if_neg he, List.map_cons, List.nodup_cons]
      exact ⟨hk0, hrest⟩

theorem eraseKeyA_sublist (k : α) (l : List (α × β)) :
    (eraseKeyA k l).Sublist l := by
  induction l with
  | nil => simp [eraseKeyA]
  | cons kv rest ih =>
    obtain ⟨k0, v0⟩ := kv
    by_cases he : k0 = k
    · simp only [eraseKeyA, if_pos he]
      exact List.sublist_cons_self _ _
    · simpa [eraseKeyA, he] using ih

theorem lookupA_eraseKeyA_self {k : α} {l : List (α × β)}
    (hnd : (l.map Prod.fst).Nodup) : lookupA k (eraseKeyA k l) = none := by
  induction l with
  | nil => rfl
  | cons kv rest ih =>
    obtain ⟨k0, v0⟩ := kv
    simp only [List.map_cons, List.nodup_cons] at hnd
    by_cases he : k0 = k
    · subst he
      refine lookupA_eq_none_of_not_mem_keys ?_
      simpa [eraseKeyA] using hnd.1
    · simp only [eraseKeyA, if_neg he, lookupA, if_neg he]
      exact ih hnd.2

theorem lookupA_eraseKeyA_ne {k k' : α} {l : List (α × β)} (hne : k' ≠ k) :
    lookupA k' (eraseKeyA k l) = lookupA k' l := by
  have hne2 : ¬ k = k' := fun hh => hne hh.symm
  induction l with
  | nil => rfl
  | cons kv rest ih =>
    obtain ⟨k0, v0⟩ := kv
    by_cases he : k0 = k
    · subst he
      simp [eraseKeyA, lookupA, hne2]
    · simp only [eraseKeyA, if_neg he, lookupA]
      by_cases he2 : k0 = k'
      · simp [he2]
      · simp [he2, ih]

theorem lookupA_filter {p : α × β → Prop} [DecidablePred p] {k : α}
    {l : List (α × β)} (hnd : (l.map Prod.fst).Nodup) :
    lookupA k (l.filter (fun kv => p kv)) =
      (lookupA k l).bind (fun v => if p (k, v) then some v else none) := by
  induction l with
  | nil => rfl
  | cons kv rest ih =>
    obtain ⟨k0, v0⟩ := kv
    simp only [List.map_cons, List.nodup_cons] at hnd
    by_cases he : k0 = k
    · subst he
      by_cases hp : p (k0, v0)
      · simp [lookupA, hp]
      · have hnone : lookupA k0 (rest.filter (fun kv => p kv)) = none := by
          refine lookupA_eq_none_of_not_mem_keys ?_
          intro hk
          rcases List.mem_map.mp hk with ⟨y, hy, hyk⟩
          exact hnd.1 (List.mem_map.mpr ⟨y, List.mem_of_mem_filter hy, hyk⟩)
        simp [lookupA, hp, hnone]
    · by_cases hp : p (k0, v0)
      · simp [lookupA, hp, he, ih hnd.2]
      · simp [lookupA, hp, he, ih hnd.2]

end AssocLemmas

section OccLemmas

variable {α : Type} [DecidableEq α]

theorem occ_append (a : α) (l1 l2 : List α) :
    occ a (l1 ++ l2) = occ a l1 + occ a l2 := by
  induction l1 with
  | nil => simp [occ]
  | cons x xs ih => simp [occ, ih, Nat.add_assoc]

theorem occ_pos_iff_mem {a : α} {l : List α} : 0 < occ a l ↔ a ∈ l := by
  induction l with
  | nil => simp [occ]
  | cons x xs ih =>
    by_cases he : x = a
    · subst he
      simp [occ, Nat.succ_le, List.mem_cons]
    · have hne : ¬ a = x := fun hh => he hh.symm
      simp [occ, he, ih, List.mem_cons, hne]

theorem occ_eq_zero_iff_not_mem {a : α} {l : List α} : occ a l = 0 ↔ a ∉ l := by
  rw [← occ_pos_iff_mem]
  omega

theorem occ_eraseFirst_self (a : α) (l : List α) :
    occ a (eraseFirst a l) = occ a l - 1 := by
  induction l with
  | nil => rfl
  | cons x xs ih =>
    by_cases he : x = a
    · subst he
      simp [eraseFirst, occ]
    · simp [eraseFirst, he, occ, ih]

theorem occ_eraseFirst_ne {a b : α} (hne : b ≠ a) (l : List α) :
    occ b (eraseFirst a l) = occ b l := by
  have hne2 : ¬ a = b := fun hh => hne hh.symm
  induction l with
  | nil => rfl
  | cons x xs ih =>
    by_cases he : x = a
    · subst he
      simp [eraseFirst, occ, hne2]
    · simp [eraseFirst, he, occ, ih]

theorem mem_eraseFirst_sub {x a : α} {l : List α} (h : x ∈ eraseFirst a l) :
    x ∈ l := by
  induction l with
  | nil => simp [eraseFirst] at h
  | cons y ys ih =>
    by_cases he : y = a
    · subst he
      simp only [eraseFirst, if_pos rfl] at h
      exact List.mem_cons_of_mem _ h
    · simp only [eraseFirst, if_neg he, List.mem_cons] at h
      rcases h with h | h
      · exact h ▸ List.mem_cons_self _ _
      · exact List.mem_cons_of_mem _ (ih h)

end OccLemmas

/-! ## Characterisation of register_message, field by field -/

theorem register_message_fst (reg : MessageRegistry) (m : Message)
    (hn k : Option String) (md : Option (List (String × String))) (now : Int) :
    (register_message reg m hn k md now).1 = mkRecord m hn md now := rfl

theorem register_message_registry (reg : MessageRegistry) (m : Message)
    (hn k : Option String) (md : Option (List (String × String))) (now : Int) :
    (register_message reg m hn k md now).2.registry =
      upsertA m.chat_id
        (dequeAppend reg.max_messages_per_chat (fifoOf reg m.chat_id)
          (mkRecord m hn md now))
        reg.registry := by
  unfold register_message
  cases hold : (if reg.max_messages_per_chat ≤ (fifoOf reg m.chat_id).length
      then (fifoOf reg m.chat_id).head? else none) <;>
    cases hk : pyTruthyStr k <;> cases hh : pyTruthyStr hn <;>
    simp [cleanup_record_references, hold, hk, hh]

theorem register_message_max (reg : MessageRegistry) (m : Message)
    (hn k : Option String) (md : Option (List (String × String))) (now : Int) :
    (register_message reg m hn k md now).2.max_messages_per_chat =
      reg.max_messages_per_chat := by
  unfold register_message
  cases hold : (if reg.max_messages_per_chat ≤ (fifoOf reg m.chat_id).length
      then (fifoOf reg m.chat_id).head? else none) <;>
    cases hk : pyTruthyStr k <;> cases hh : pyTruthyStr hn <;>
    simp [cleanup_record_references, hold, hk, hh]

theorem register_message_key_full (reg : MessageRegistry) (m : Message)
    (hn k : Option String) (md : Option (List (String × String))) (now : Int)
    (evicted : MessageRecord)
    (hfull : reg.max_messages_per_chat ≤ (fifoOf reg m.chat_id).length)
    (hhead : (fifoOf reg m.chat_id).head? = some evicted) :
    (register_message reg m hn k md now).2.key_registry =
      (match pyTruthyStr k with
       | some kk => upsertA kk (mkRecord m hn md now)
           (reg.key_registry.filter (fun kv => ¬ kv.2.message_id = evicted.message_id))
       | none =>
           reg.key_registry.filter (fun kv => ¬ kv.2.message_id = evicted.message_id)) := by
  unfold register_message
  cases hk : pyTruthyStr k <;> cases hh : pyTruthyStr hn <;>
    simp [cleanup_record_references, hfull, hhead, hk, hh]

theorem register_message_handler_full (reg : MessageRegistry) (m : Message)
    (hn k : Option String) (md : Option (List (String × String))) (now : Int)
    (evicted : MessageRecord)
    (hfull : reg.max_messages_per_chat ≤ (fifoOf reg m.chat_id).length)
    (hhead : (fifoOf reg m.chat_id).head? = some evicted) :
    (register_message reg m hn k md now).2.handler_registry =
      (match pyTruthyStr hn with
       | some h2 =>
         upsertA h2
           ((lookupA h2 (cleanup_handler_index reg.handler_registry evicted)).getD []
             ++ [mkRecord m hn md now])
           (cleanup_handler_index reg.handler_registry evicted)
       | none => cleanup_handler_index reg.handler_registry evicted) := by
  unfold register_message
  cases hk : pyTruthyStr k <;> cases hh : pyTruthyStr hn <;>
    simp [cleanup_record_references, hfull, hhead, hk, hh]

theorem register_message_key_notfull (reg : MessageRegistry) (m : Message)
    (hn k : Option String) (md : Option (List (String × String))) (now : Int)
    (hnot : ¬ reg.max_messages_per_chat ≤ (fifoOf reg m.chat_id).length) :
    (register_message reg m hn k md now).2.key_registry =
      (match pyTruthyStr k with
       | some kk => upsertA kk (mkRecord m hn md now) reg.key_registry
       | none => reg.key_registry) := by
  unfold register_message
  cases hk : pyTruthyStr k <;> cases hh : pyTruthyStr hn <;>
    simp [cleanup_record_references, hnot, hk, hh]

theorem register_message_handler_notfull (reg : MessageRegistry) (m : Message)
    (hn k : Option String) (md : Option (List (String × String))) (now : Int)
    (hnot : ¬ reg.max_messages_per_chat ≤ (fifoOf reg m.chat_id).length) :
    (register_message reg m hn k md now).2.handler_registry =
      (match pyTruthyStr hn with
       | some h2 =>
         upsertA h2 ((lookupA h2 reg.handler_registry).getD [] ++ [mkRecord m hn md now])
           reg.handler_registry
       | none => reg.handler_registry) := by
  unfold register_message
  cases hk : pyTruthyStr k <;> cases hh : pyTruthyStr hn <;>
    simp [cleanup_record_references, hnot, hk, hh]

/-! ## Behaviour of the handler-index cleanup -/

theorem cleanup_handler_eq_of_none {H : List (String × List MessageRecord)}
    {r : MessageRecord} (hl : lookupA r.handler_name H = none) :
    cleanup_handler_index H r = H := by
  unfold cleanup_handler_index
  rw [hl]

theorem cleanup_handler_eq_of_not_mem {H : List (String × List MessageRecord)}
    {r : MessageRecord} {l : List MessageRecord}
    (hl : lookupA r.handler_name H = some l) (hmem : r ∉ l) :
    cleanup_handler_index H r = H := by
  unfold cleanup_handler_index
  rw [hl]
  simp [hmem]

theorem cleanup_handler_eq_of_erase_nil {H : List (String × List MessageRecord)}
    {r : MessageRecord} {l : List MessageRecord}
    (hl : lookupA r.handler_name H = some l) (hmem : r ∈ l)
    (hnil : eraseFirst r l = []) :
    cleanup_handler_index H r = eraseKeyA r.handler_name H := by
  unfold cleanup_handler_index
  rw [hl]
  simp [hmem, hnil]

theorem cleanup_handler_eq_of_erase {H : List (String × List MessageRecord)}
    {r : MessageRecord} {l : List MessageRecord}
    (hl : lookupA r.handler_name H = some l) (hmem : r ∈ l)
    (hnil : ¬ eraseFirst r l = []) :
    cleanup_handler_index H r = upsertA r.handler_name (eraseFirst r l) H := by
  unfold cleanup_handler_index
  rw [hl]
  simp [hmem, hnil]

/-- After cleanup, a record that occurred at most once in its handler's
list is no longer in it. -/
theorem cleanup_handler_not_mem (H : List (String × List MessageRecord))
    (r : MessageRecord) (hnd : (H.map Prod.fst).Nodup)
    (hocc : occ r ((lookupA r.handler_name H).getD []) ≤ 1) :
    r ∉ (lookupA r.handler_name (cleanup_handler_index H r)).getD [] := by
  cases hl : lookupA r.handler_name H with
  | none =>
    rw [cleanup_handler_eq_of_none hl, hl]
    simp
  | some l =>
    rw [hl] at hocc
    simp only [Option.getD_some] at hocc
    by_cases hmem : r ∈ l
    · by_cases hl2 : eraseFirst r l = []
      · rw [cleanup_handler_eq_of_erase_nil hl hmem hl2,
          lookupA_eraseKeyA_self hnd]
        simp
      · rw [cleanup_handler_eq_of_erase hl hmem hl2, lookupA_upsertA_self]
        have h1 : occ r (eraseFirst r l) = occ r l - 1 := occ_eraseFirst_self r l
        have h2 : 0 < occ r l := occ_pos_iff_mem.mpr hmem
        have h3 : occ r (eraseFirst r l) = 0 := by omega
        simpa using occ_eq_zero_iff_not_mem.mp h3
    · rw [cleanup_handler_eq_of_not_mem hl hmem, hl]
      simpa using hmem

/-- Cleanup touches only the evicted record's own handler entry. -/
theorem cleanup_handler_lookup_ne (H : List (String × List MessageRecord))
    (r : MessageRecord) (h2 : String) (hne : h2 ≠ r.handler_name) :
    lookupA h2 (cleanup_handler_index H r) = lookupA h2 H := by
  cases hl : lookupA r.handler_name H with
  | none => rw [cleanup_handler_eq_of_none hl]
  | some l =>
    by_cases hmem : r ∈ l
    · by_cases hl2 : eraseFirst r l = []
      · rw [cleanup_handler_eq_of_erase_nil hl hmem hl2,
          lookupA_eraseKeyA_ne hne]
      · rw [cleanup_handler_eq_of_erase hl hmem hl2,
          lookupA_upsertA_ne _ _ hne]
    · rw [cleanup_handler_eq_of_not_mem hl hmem]

/-- Cleanup removes exactly one occurrence of the record from its
handler's list (none when it was absent, by Nat subtraction). -/
theorem cleanup_handler_occ (H : List (String × List MessageRecord))
    (r x : MessageRecord) (hnd : (H.map Prod.fst).Nodup) :
    occ x ((lookupA r.handler_name (cleanup_handler_index H r)).getD []) =
      occ x ((lookupA r.handler_name H).getD []) -
        (if x = r then 1 else 0) := by
  cases hl : lookupA r.handler_name H with
  | none =>
    rw [cleanup_handler_eq_of_none hl, hl]
    simp only [Option.getD_none]
    rw [show occ x ([] : List MessageRecord) = 0 from rfl]
    by_cases hx : x = r <;> simp [hx]
  | some l =>
    by_cases hmem : r ∈ l
    · by_cases hl2 : eraseFirst r l = []
      · rw [cleanup_handler_eq_of_erase_nil hl hmem hl2,
          lookupA_eraseKeyA_self hnd]
        simp only [Option.getD_none, Option.getD_some]
        rw [show occ x ([] : List MessageRecord) = 0 from rfl]
        by_cases hx : x = r
        · subst hx
          have h1 := occ_eraseFirst_self x l
          rw [hl2] at h1
          rw [show occ x ([] : List MessageRecord) = 0 from rfl] at h1
          simp only [if_pos rfl]
          exact h1
        · have h1 := occ_eraseFirst_ne hx l
          rw [hl2] at h1
          rw [show occ x ([] : List MessageRecord) = 0 from rfl] at h1
          simp only [if_neg hx]
          rw [Nat.sub_zero]
          exact h1
      · rw [cleanup_handler_eq_of_erase hl hmem hl2, lookupA_upsertA_self]
        simp only [Option.getD_some]
        by_cases hx : x = r
        · subst hx
          simp only [if_pos rfl]
          exact occ_eraseFirst_self x l
        · simp only [if_neg hx]
          rw [occ_eraseFirst_ne hx l, Nat.sub_zero]
    · rw [cleanup_handler_eq_of_not_mem hl hmem, hl]
      simp only [Option.getD_some]
      by_cases hx : x = r
      · subst hx
        have h0 : occ x l = 0 := occ_eq_zero_iff_not_mem.mpr hmem
        simp [h0]
      · simp [hx]

/-! ## Further support lemmas for the registry invariant -/

/-- The per-chat FIFO after a registration: the target chat gets the
bounded append, every other chat is untouched. -/
theorem fifoOf_register (reg : MessageRegistry) (m : Message)
    (hn k : Option String) (md : Option (List (String × String))) (now : Int)
    (c : Int) :
    fifoOf (register_message reg m hn k md now).2 c =
      (if c = m.chat_id
       then dequeAppend reg.max_messages_per_chat (fifoOf reg m.chat_id)
         (mkRecord m hn md now)
       else fifoOf reg c) := by
  by_cases hc : c = m.chat_id
  · subst hc
    unfold fifoOf
    rw [register_message_registry, lookupA_upsertA_self]
    simp
    rfl
  · unfold fifoOf
    rw [register_message_registry, lookupA_upsertA_ne _ _ hc, if_neg hc]

/-- Records found in a chat's FIFO carry that chat id. -/
theorem mem_fifoOf_chat {reg : MessageRegistry} {r : MessageRecord} {c : Int}
    (hI4 : ∀ e ∈ reg.registry, ∀ x ∈ e.2, x.chat_id = e.1)
    (hmem : r ∈ fifoOf reg c) : r.chat_id = c := by
  unfold fifoOf at hmem
  cases hl : lookupA c reg.registry with
  | none => rw [hl] at hmem; simp at hmem
  | some fl =>
    rw [hl] at hmem
    simp only [Option.getD_some] at hmem
    exact hI4 (c, fl) (lookupA_mem hl) r hmem

/-- Cleanup keeps the handler index's keys nodup. -/
theorem cleanup_handler_nodup (H : List (String × List MessageRecord))
    (r : MessageRecord) (hnd : (H.map Prod.fst).Nodup) :
    ((cleanup_handler_index H r).map Prod.fst).Nodup := by
  cases hl : lookupA r.handler_name H with
  | none => rw [cleanup_handler_eq_of_none hl]; exact hnd
  | some l =>
    by_cases hmem : r ∈ l
    · by_cases hl2 : eraseFirst r l = []
      · rw [cleanup_handler_eq_of_erase_nil hl hmem hl2]
        exact hnd.sublist ((eraseKeyA_sublist _ _).map _)
      · rw [cleanup_handler_eq_of_erase hl hmem hl2]
        exact keys_upsertA_nodup hnd
    · rw [cleanup_handler_eq_of_not_mem hl hmem]; exact hnd

/-- Cleanup keeps the handler-name consistency of the handler index. -/
theorem cleanup_handler_names (H : List (String × List MessageRecord))
    (r : MessageRecord)
    (hI2 : ∀ e ∈ H, ∀ x ∈ e.2, x.handler_name = e.1) :
    ∀ e ∈ cleanup_handler_index H r, ∀ x ∈ e.2, x.handler_name = e.1 := by
  cases hl : lookupA r.handler_name H with
  | none => rw [cleanup_handler_eq_of_none hl]; exact hI2
  | some l =>
    by_cases hmem : r ∈ l
    · by_cases hl2 : eraseFirst r l = []
      · rw [cleanup_handler_eq_of_erase_nil hl hmem hl2]
        intro e he
        exact hI2 e ((eraseKeyA_sublist _ _).mem he)
      · rw [cleanup_handler_eq_of_erase hl hmem hl2]
        intro e he x hx
        rcases mem_upsertA he with rfl | he2
        · exact hI2 (r.handler_name, l) (lookupA_mem hl) x (mem_eraseFirst_sub hx)
        · exact hI2 e he2 x hx
    · rw [cleanup_handler_eq_of_not_mem hl hmem]; exact hI2

/-- The one-sided cleanup count statement at the record's own handler
name, valid for any record `x`. -/
theorem cleanup_handler_occ_uniform (H : List (String × List MessageRecord))
    (ev x : MessageRecord) (hnd : (H.map Prod.fst).Nodup) :
    occ x ((lookupA x.handler_name (cleanup_handler_index H ev)).getD []) =
      occ x ((lookupA x.handler_name H).getD []) - (if x = ev then 1 else 0) := by
  by_cases hxe : x.handler_name = ev.handler_name
  · rw [hxe]
    exact cleanup_handler_occ H ev x hnd
  · rw [cleanup_handler_lookup_ne H ev _ hxe]
    have hne : ¬ x = ev := fun he => hxe (congrArg MessageRecord.handler_name he)
    simp [hne]

/-! ## Claim C3: eviction at capacity -/

/-- Claim C3: when a chat already holds `maxPerChat` records (with
`maxPerChat > 0`), registering one more record evicts exactly the chat's
oldest record and no other FIFO entry of any chat; every key that mapped
to the evicted record afterwards resolves to absent (unless re-bound by
the new registration itself), the evicted record disappears from its
handler's index list, and key bindings of other records are untouched.
The hypotheses state the dict well-formedness (unique keys), that message
ids identify records uniquely enough (the evicted record occurs at most
once in its handler list and the new message id differs), and that the
new key differs from the evicted one. -/
theorem c3_eviction (reg : MessageRegistry) (m : Message) (hn k : Option String)
    (md : Option (List (String × String))) (now : Int)
    (evicted : MessageRecord) (kev : String)
    (hmax : 0 < reg.max_messages_per_chat)
    (hlen : (fifoOf reg m.chat_id).length = reg.max_messages_per_chat)
    (hhead : (fifoOf reg m.chat_id).head? = some evicted)
    (hndK : (reg.key_registry.map Prod.fst).Nodup)
    (hndH : (reg.handler_registry.map Prod.fst).Nodup)
    (hoccH : occ evicted (handlerAll reg evicted.handler_name) ≤ 1)
    (hid : m.message_id ≠ evicted.message_id)
    (hkev : lookupA kev reg.key_registry = some evicted)
    (hknew : pyTruthyStr k ≠ some kev) :
    fifoOf (register_message reg m hn k md now).2 m.chat_id =
      (fifoOf reg m.chat_id).tail ++ [(register_message reg m hn k md now).1] ∧
    (∀ c : Int, c ≠ m.chat_id →
      fifoOf (register_message reg m hn k md now).2 c = fifoOf reg c) ∧
    get_by_key (register_message reg m hn k md now).2 kev = none ∧
    evicted ∉ handlerAll (register_message reg m hn k md now).2 evicted.handler_name ∧
    (∀ (k2 : String) (v : MessageRecord), lookupA k2 reg.key_registry = some v →
      v.message_id ≠ evicted.message_id → pyTruthyStr k ≠ some k2 →
      get_by_key (register_message reg m hn k md now).2 k2 = some v) := by
  have hfull : reg.max_messages_per_chat ≤ (fifoOf reg m.chat_id).length :=
    le_of_eq hlen.symm
  have hmax0 : ¬ reg.max_messages_per_chat = 0 := Nat.pos_iff_ne_zero.mp hmax
  have hrecne : mkRecord m hn md now ≠ evicted := by
    intro he
    exact hid (congrArg MessageRecord.message_id he)
  have hKfull := register_message_key_full reg m hn k md now evicted hfull hhead
  have hHfull := register_message_handler_full reg m hn k md now evicted hfull hhead
  refine ⟨?_, ?_, ?_, ?_, ?_⟩
  · rw [register_message_fst]
    unfold fifoOf
    rw [register_message_registry, lookupA_upsertA_self]
    simp only [dequeAppend, if_neg hmax0, if_pos hfull, Option.getD_some]
    rfl
  · intro c hc
    unfold fifoOf
    rw [register_message_registry, lookupA_upsertA_ne _ _ hc]
  · unfold get_by_key
    cases hk : pyTruthyStr k with
    | none =>
      rw [hk] at hKfull
      simp only at hKfull
      rw [hKfull, lookupA_filter hndK, hkev]
      simp
    | some kk =>
      rw [hk] at hKfull
      simp only at hKfull
      have hne : kev ≠ kk := by
        intro he
        exact hknew (by rw [hk, he])
      rw [hKfull, lookupA_upsertA_ne _ _ hne, lookupA_filter hndK, hkev]
      simp
  · unfold handlerAll
    cases hh : pyTruthyStr hn with
    | none =>
      rw [hh] at hHfull
      simp only at hHfull
      rw [hHfull]
      exact cleanup_handler_not_mem reg.handler_registry evicted hndH hoccH
    | some h2 =>
      rw [hh] at hHfull
      simp only at hHfull
      rw [hHfull]
      by_cases heq : h2 = evicted.handler_name
      · subst heq
        rw [lookupA_upsertA_self]
        simp only [Option.getD_some, List.mem_append, List.mem_singleton]
        push_neg
        refine ⟨?_, ?_⟩
        · exact cleanup_handler_not_mem reg.handler_registry evicted hndH hoccH
        · exact fun he => hrecne he.symm
      · have hne2 : evicted.handler_name ≠ h2 := fun he => heq he.symm
        rw [lookupA_upsertA_ne _ _ hne2]
        exact cleanup_handler_not_mem reg.handler_registry evicted hndH hoccH
  · intro k2 v hv hvid hk2
    unfold get_by_key
    cases hk : pyTruthyStr k with
    | none =>
      rw [hk] at hKfull
      simp only at hKfull
      rw [hKfull, lookupA_filter hndK, hv]
      simp [hvid]
    | some kk =>
      rw [hk] at hKfull
      simp only at hKfull
      have hne : k2 ≠ kk := by
        intro he
        exact hk2 (by rw [hk, he])
      rw [hKfull, lookupA_upsertA_ne _ _ hne, lookupA_filter hndK, hv]
      simp [hvid]

/-- Registry at capacity for the C3 witness: one chat (5) with
`maxPerChat = 1` holding one record registered under key "k1". -/
def regC3 : MessageRegistry :=
  (register_message (MessageRegistry.empty 1) ⟨1, 5, some 1⟩ (some "h")
    (some "k1") none 0).2

/-- Witness for C3: registering a second record into the full chat 5. -/
theorem c3_eviction_witness :
    fifoOf (register_message regC3 ⟨2, 5, some 2⟩ (some "h") (some "k2") none 0).2 5 =
      (fifoOf regC3 5).tail ++
        [(register_message regC3 ⟨2, 5, some 2⟩ (some "h") (some "k2") none 0).1] ∧
    (∀ c : Int, c ≠ (5 : Int) →
      fifoOf (register_message regC3 ⟨2, 5, some 2⟩ (some "h") (some "k2") none 0).2 c =
        fifoOf regC3 c) ∧
    get_by_key (register_message regC3 ⟨2, 5, some 2⟩ (some "h") (some "k2") none 0).2
      "k1" = none ∧
    (⟨1, 5, "h", 1, []⟩ : MessageRecord) ∉
      handlerAll (register_message regC3 ⟨2, 5, some 2⟩ (some "h") (some "k2") none 0).2
        (⟨1, 5, "h", 1, []⟩ : MessageRecord).handler_name ∧
    (∀ (k2 : String) (v : MessageRecord), lookupA k2 regC3.key_registry = some v →
      v.message_id ≠ (⟨1, 5, "h", 1, []⟩ : MessageRecord).message_id →
      pyTruthyStr (some "k2") ≠ some k2 →
      get_by_key (register_message regC3 ⟨2, 5, some 2⟩ (some "h") (some "k2") none 0).2
        k2 = some v) :=
  c3_eviction regC3 ⟨2, 5, some 2⟩ (some "h") (some "k2") none 0
    ⟨1, 5, "h", 1, []⟩ "k1" (by decide) (by decide) (by decide) (by decide)
    (by decide) (by decide) (by decide) (by decide) (by decide)

/-! ## Claim C4: secondary indexes only reach records in the FIFOs -/

/-- Pure-arithmetic combination step for the count invariant. -/
theorem occ_combine (a c i j : Nat) (hab : a ≤ i + c) : a - i + j ≤ c + j := by
  omega

/-- The well-formedness invariant maintained by `register_message`:
dictionary keys are unique, FIFO records carry their chat id, handler
lists carry their handler name, every key-indexed record lives in its
chat FIFO, and no record occurs more often in its handler list than in
its chat FIFO. -/
def RegInv (reg : MessageRegistry) : Prop :=
  (reg.registry.map Prod.fst).Nodup ∧
  (reg.key_registry.map Prod.fst).Nodup ∧
  (reg.handler_registry.map Prod.fst).Nodup ∧
  (∀ e ∈ reg.registry, ∀ x ∈ e.2, x.chat_id = e.1) ∧
  (∀ e ∈ reg.handler_registry, ∀ x ∈ e.2, x.handler_name = e.1) ∧
  (∀ e ∈ reg.key_registry, e.2 ∈ fifoOf reg e.2.chat_id) ∧
  (∀ r : MessageRecord,
    occ r (handlerAll reg r.handler_name) ≤ occ r (fifoOf reg r.chat_id))

/-- One `register_message` call preserves the registry invariant
(for a positive capacity). -/
theorem register_preserves_inv (reg : MessageRegistry) (m : Message)
    (hn k : Option String) (md : Option (List (String × String))) (now : Int)
    (hmax : 0 < reg.max_messages_per_chat) (hinv : RegInv reg) :
    RegInv (register_message reg m hn k md now).2 := by
  obtain ⟨h0R, h0K, h0H, hI4, hI2, hI3, hI1⟩ := hinv
  have hmax0 : ¬ reg.max_messages_per_chat = 0 := Nat.pos_iff_ne_zero.mp hmax
  refine ⟨?_, ?_, ?_, ?_, ?_, ?_, ?_⟩
  · rw [register_message_registry]
    exact keys_upsertA_nodup h0R
  · by_cases hfull : reg.max_messages_per_chat ≤ (fifoOf reg m.chat_id).length
    · have hfne : fifoOf reg m.chat_id ≠ [] := by
        intro h0
        rw [h0] at hfull
        simp at hfull
        omega
      cases hfifo : fifoOf reg m.chat_id with
      | nil => exact absurd hfifo hfne
      | cons ev ftail =>
        have hhead : (fifoOf reg m.chat_id).head? = some ev := by rw [hfifo]; rfl
        rw [register_message_key_full reg m hn k md now ev hfull hhead]
        have hfil : ((reg.key_registry.filter
            (fun kv => ¬ kv.2.message_id = ev.message_id)).map Prod.fst).Nodup :=
          h0K.sublist ((List.filter_sublist _).map _)
        cases pyTruthyStr k with
        | some kk => exact keys_upsertA_nodup hfil
        | none => exact hfil
    · rw [register_message_key_notfull reg m hn k md now hfull]
      cases pyTruthyStr k with
      | some kk => exact keys_upsertA_nodup h0K
      | none => exact h0K
  · by_cases hfull : reg.max_messages_per_chat ≤ (fifoOf reg m.chat_id).length
    · have hfne : fifoOf reg m.chat_id ≠ [] := by
        intro h0
        rw [h0] at hfull
        simp at hfull
        omega
      cases hfifo : fifoOf reg m.chat_id with
      | nil => exact absurd hfifo hfne
      | cons ev ftail =>
        have hhead : (fifoOf reg m.chat_id).head? = some ev := by rw [hfifo]; rfl
        rw [register_message_handler_full reg m hn k md now ev hfull hhead]
        have hcl := cleanup_handler_nodup reg.handler_registry ev h0H
        cases pyTruthyStr hn with
        | some h2 => exact keys_upsertA_nodup hcl
        | none => exact hcl
    · rw [register_message_handler_notfull reg m hn k md now hfull]
      cases pyTruthyStr hn with
      | some h2 => exact keys_upsertA_nodup h0H
      | none => exact h0H
  · rw [register_message_registry]
    intro e he x hx
    rcases mem_upsertA he with heq | he2
    · subst heq
      have hx2 : x ∈ dequeAppend reg.max_messages_per_chat (fifoOf reg m.chat_id)
          (mkRecord m hn md now) := hx
      show x.chat_id = m.chat_id
      unfold dequeAppend at hx2
      rw [if_neg hmax0] at hx2
      by_cases hfull : reg.max_messages_per_chat ≤ (fifoOf reg m.chat_id).length
      · rw [if_pos hfull] at hx2
        rcases List.mem_append.mp hx2 with hx1 | hx1
        · exact mem_fifoOf_chat hI4 ((List.tail_sublist _).mem hx1)
        · rw [List.mem_singleton] at hx1
          subst hx1
          rfl
      · rw [if_neg hfull] at hx2
        rcases List.mem_append.mp hx2 with hx1 | hx1
        · exact mem_fifoOf_chat hI4 hx1
        · rw [List.mem_singleton] at hx1
          subst hx1
          rfl
    · exact hI4 e he2 x hx
  · by_cases hfull : reg.max_messages_per_chat ≤ (fifoOf reg m.chat_id).length
    · have hfne : fifoOf reg m.chat_id ≠ [] := by
        intro h0
        rw [h0] at hfull
        simp at hfull
        omega
      cases hfifo : fifoOf reg m.chat_id with
      | nil => exact absurd hfifo hfne
      | cons ev ftail =>
        have hhead : (fifoOf reg m.chat_id).head? = some ev := by rw [hfifo]; rfl
        have hHf := register_message_handler_full reg m hn k md now ev hfull hhead
        cases hh : pyTruthyStr hn with
        | none =>
          rw [hh] at hHf
          simp only at hHf
          rw [hHf]
          exact cleanup_handler_names reg.handler_registry ev hI2
        | some h2 =>
          rw [hh] at hHf
          simp only at hHf
          rw [hHf]
          intro e he x hx
          rcases mem_upsertA he with heq | he2
          · subst heq
            have hx2 : x ∈ (lookupA h2
                (cleanup_handler_index reg.handler_registry ev)).getD []
                ++ [mkRecord m hn md now] := hx
            show x.handler_name = h2
            rcases List.mem_append.mp hx2 with hx1 | hx1
            · cases hl : lookupA h2 (cleanup_handler_index reg.handler_registry ev) with
              | none =>
                rw [hl] at hx1
                simp at hx1
              | some L =>
                rw [hl] at hx1
                simp only [Option.getD_some] at hx1
                exact cleanup_handler_names reg.handler_registry ev hI2 (h2, L)
                  (lookupA_mem hl) x hx1
            · rw [List.mem_singleton] at hx1
              subst hx1
              show (pyTruthyStr hn).getD "unknown" = h2
              rw [hh, Option.getD_some]
          · exact cleanup_handler_names reg.handler_registry ev hI2 e he2 x hx
    · have hHnf := register_message_handler_notfull reg m hn k md now hfull
      cases hh : pyTruthyStr hn with
      | none =>
        rw [hh] at hHnf
        simp only at hHnf
        rw [hHnf]
        exact hI2
      | some h2 =>
        rw [hh] at hHnf
        simp only at hHnf
        rw [hHnf]
        intro e he x hx
        rcases mem_upsertA he with heq | he2
        · subst heq
          have hx2 : x ∈ (lookupA h2 reg.handler_registry).getD []
              ++ [mkRecord m hn md now] := hx
          show x.handler_name = h2
          rcases List.mem_append.mp hx2 with hx1 | hx1
          · cases hl : lookupA h2 reg.handler_registry with
            | none =>
              rw [hl] at hx1
              simp at hx1
            | some L =>
              rw [hl] at hx1
              simp only [Option.getD_some] at hx1
              exact hI2 (h2, L) (lookupA_mem hl) x hx1
          · rw [List.mem_singleton] at hx1
            subst hx1
            show (pyTruthyStr hn).getD "unknown" = h2
            rw [hh, Option.getD_some]
        · exact hI2 e he2 x hx
  · intro e he
    rw [fifoOf_register]
    by_cases hfull : reg.max_messages_per_chat ≤ (fifoOf reg m.chat_id).length
    · have hfne : fifoOf reg m.chat_id ≠ [] := by
        intro h0
        rw [h0] at hfull
        simp at hfull
        omega
      have hex : ∃ ev ftail, fifoOf reg m.chat_id = ev :: ftail := by
        cases hfifo0 : fifoOf reg m.chat_id with
        | nil => exact absurd hfifo0 hfne
        | cons a b => exact ⟨a, b, rfl⟩
      obtain ⟨ev, ftail, hfifo⟩ := hex
      have hhead : (fifoOf reg m.chat_id).head? = some ev := by rw [hfifo]; rfl
      have hKf := register_message_key_full reg m hn k md now ev hfull hhead
      have hrecmem : (mkRecord m hn md now) ∈
          (if (mkRecord m hn md now).chat_id = m.chat_id
           then dequeAppend reg.max_messages_per_chat (fifoOf reg m.chat_id)
             (mkRecord m hn md now)
           else fifoOf reg (mkRecord m hn md now).chat_id) := by
        have hcc : (mkRecord m hn md now).chat_id = m.chat_id := rfl
        rw [if_pos hcc]
        unfold dequeAppend
        rw [if_neg hmax0, if_pos hfull]
        exact List.mem_append_right _ (List.mem_singleton_self _)
      have hold : ∀ e2 ∈ reg.key_registry, ¬ e2.2.message_id = ev.message_id →
          e2.2 ∈ (if e2.2.chat_id = m.chat_id
           then dequeAppend reg.max_messages_per_chat (fifoOf reg m.chat_id)
             (mkRecord m hn md now)
           else fifoOf reg e2.2.chat_id) := by
        intro e2 hin hne
        have hI3e := hI3 e2 hin
        by_cases hc : e2.2.chat_id = m.chat_id
        · rw [if_pos hc]
          unfold dequeAppend
          rw [if_neg hmax0, if_pos hfull]
          rw [hc, hfifo] at hI3e
          rcases List.mem_cons.mp hI3e with heq2 | hmem2
          · exact absurd (congrArg MessageRecord.message_id heq2) hne
          · show e2.2 ∈ (fifoOf reg m.chat_id).tail ++ [mkRecord m hn md now]
            rw [hfifo]
            exact List.mem_append_left _ hmem2
        · rw [if_neg hc]
          exact hI3e
      cases hk : pyTruthyStr k with
      | some kk =>
        rw [hk] at hKf
        simp only at hKf
        rw [hKf] at he
        rcases mem_upsertA he with heq | he2
        · subst heq
          exact hrecmem
        · have hmemf := List.mem_filter.mp he2
          exact hold e hmemf.1 (of_decide_eq_true hmemf.2)
      | none =>
        rw [hk] at hKf
        simp only at hKf
        rw [hKf] at he
        have hmemf := List.mem_filter.mp he
        exact hold e hmemf.1 (of_decide_eq_true hmemf.2)
    · have hKnf := register_message_key_notfull reg m hn k md now hfull
      have hrecmem : (mkRecord m hn md now) ∈
          (if (mkRecord m hn md now).chat_id = m.chat_id
           then dequeAppend reg.max_messages_per_chat (fifoOf reg m.chat_id)
             (mkRecord m hn md now)
           else fifoOf reg (mkRecord m hn md now).chat_id) := by
        have hcc : (mkRecord m hn md now).chat_id = m.chat_id := rfl
        rw [if_pos hcc]
        unfold dequeAppend
        rw [if_neg hmax0, if_neg hfull]
        exact List.mem_append_right _ (List.mem_singleton_self _)
      have hold : ∀ e2 ∈ reg.key_registry,
          e2.2 ∈ (if e2.2.chat_id = m.chat_id
           then dequeAppend reg.max_messages_per_chat (fifoOf reg m.chat_id)
             (mkRecord m hn md now)
           else fifoOf reg e2.2.chat_id) := by
        intro e2 hin
        have hI3e := hI3 e2 hin
        by_cases hc : e2.2.chat_id = m.chat_id
        · rw [if_pos hc]
          unfold dequeAppend
          rw [if_neg hmax0, if_neg hfull]
          rw [hc] at hI3e
          exact List.mem_append_left _ hI3e
        · rw [if_neg hc]
          exact hI3e
      cases hk : pyTruthyStr k with
      | some kk =>
        rw [hk] at hKnf
        simp only at hKnf
        rw [hKnf] at he
        rcases mem_upsertA he with heq | he2
        · subst heq
          exact hrecmem
        · exact hold e he2
      | none =>
        rw [hk] at hKnf
        simp only at hKnf
        rw [hKnf] at he
        exact hold e he
  · intro r
    by_cases hfull : reg.max_messages_per_chat ≤ (fifoOf reg m.chat_id).length
    · have hfne : fifoOf reg m.chat_id ≠ [] := by
        intro h0
        rw [h0] at hfull
        simp at hfull
        omega
      have hex : ∃ ev ftail, fifoOf reg m.chat_id = ev :: ftail := by
        cases hfifo0 : fifoOf reg m.chat_id with
        | nil => exact absurd hfifo0 hfne
        | cons a b => exact ⟨a, b, rfl⟩
      obtain ⟨ev, ftail, hfifo⟩ := hex
      have hhead : (fifoOf reg m.chat_id).head? = some ev := by rw [hfifo]; rfl
      have hHf := register_message_handler_full reg m hn k md now ev hfull hhead
      have hH1 : occ r ((lookupA r.handler_name
          (cleanup_handler_index reg.handler_registry ev)).getD []) =
          occ r (handlerAll reg r.handler_name) - (if r = ev then 1 else 0) :=
        cleanup_handler_occ_uniform reg.handler_registry ev r h0H
      have hHC : occ r (handlerAll (register_message reg m hn k md now).2
            r.handler_name) ≤
          (occ r (handlerAll reg r.handler_name) - (if r = ev then 1 else 0)) +
            (if mkRecord m hn md now = r then 1 else 0) := by
        cases hh : pyTruthyStr hn with
        | none =>
          rw [hh] at hHf
          simp only at hHf
          unfold handlerAll
          rw [hHf, hH1]
          exact Nat.le_add_right _ _
        | some h2 =>
          rw [hh] at hHf
          simp only at hHf
          unfold handlerAll
          rw [hHf]
          by_cases hr2 : r.handler_name = h2
          · rw [hr2, lookupA_upsertA_self]
            simp only [Option.getD_some]
            rw [occ_append]
            have hocc1 : occ r [mkRecord m hn md now] =
                (if mkRecord m hn md now = r then 1 else 0) := by
              simp [occ]
            rw [hocc1, ← hr2, hH1]
            exact Nat.le_refl _
          · rw [lookupA_upsertA_ne _ _ hr2, hH1]
            exact Nat.le_add_right _ _
      by_cases hc : r.chat_id = m.chat_id
      · have hFC : occ r (fifoOf (register_message reg m hn k md now).2 r.chat_id) =
            occ r ftail + (if mkRecord m hn md now = r then 1 else 0) := by
          rw [fifoOf_register, if_pos hc]
          unfold dequeAppend
          rw [if_neg hmax0, if_pos hfull, hfifo]
          show occ r (ftail ++ [mkRecord m hn md now]) = _
          rw [occ_append]
          congr 1
        have hb : occ r (fifoOf reg r.chat_id) =
            (if r = ev then 1 else 0) + occ r ftail := by
          rw [hc, hfifo]
          show (if ev = r then 1 else 0) + occ r ftail = _
          congr 1
          by_cases hre : r = ev
          · simp [hre]
          · have hre2 : ¬ ev = r := fun hx => hre hx.symm
            simp [hre, hre2]
        have hI1r := hI1 r
        rw [hb] at hI1r
        rw [hFC]
        exact le_trans hHC (occ_combine _ _ _ _ hI1r)
      · have hrev : ¬ r = ev := by
          intro he
          have hevmem : ev ∈ fifoOf reg m.chat_id := by
            rw [hfifo]
            exact List.mem_cons_self _ _
          have hevc := mem_fifoOf_chat hI4 hevmem
          rw [he] at hc
          exact hc hevc
        have hrec : ¬ mkRecord m hn md now = r := by
          intro he
          apply hc
          rw [← he]
          rfl
        have hFC : occ r (fifoOf (register_message reg m hn k md now).2 r.chat_id) =
            occ r (fifoOf reg r.chat_id) := by
          rw [fifoOf_register, if_neg hc]
        rw [hFC]
        refine le_trans hHC ?_
        rw [if_neg hrev, if_neg hrec, Nat.sub_zero, Nat.add_zero]
        exact hI1 r
    · have hHnf := register_message_handler_notfull reg m hn k md now hfull
      have hHC : occ r (handlerAll (register_message reg m hn k md now).2
            r.handler_name) ≤
          occ r (handlerAll reg r.handler_name) +
            (if mkRecord m hn md now = r then 1 else 0) := by
        cases hh : pyTruthyStr hn with
        | none =>
          rw [hh] at hHnf
          simp only at hHnf
          unfold handlerAll
          rw [hHnf]
          exact Nat.le_add_right _ _
        | some h2 =>
          rw [hh] at hHnf
          simp only at hHnf
          unfold handlerAll
          rw [hHnf]
          by_cases hr2 : r.handler_name = h2
          · rw [hr2, lookupA_upsertA_self]
            simp only [Option.getD_some]
            rw [occ_append]
            have hocc1 : occ r [mkRecord m hn md now] =
                (if mkRecord m hn md now = r then 1 else 0) := by
              simp [occ]
            rw [hocc1, ← hr2]
          · rw [lookupA_upsertA_ne _ _ hr2]
            exact Nat.le_add_right _ _
      by_cases hc : r.chat_id = m.chat_id
      · have hFC : occ r (fifoOf (register_message reg m hn k md now).2 r.chat_id) =
            occ r (fifoOf reg r.chat_id) +
              (if mkRecord m hn md now = r then 1 else 0) := by
          rw [fifoOf_register, if_pos hc]
          unfold dequeAppend
          rw [if_neg hmax0, if_neg hfull, occ_append, hc]
          congr 1
        rw [hFC]
        exact le_trans hHC (Nat.add_le_add_right (hI1 r) _)
      · have hrec : ¬ mkRecord m hn md now = r := by
          intro he
          apply hc
          rw [← he]
          rfl
        have hFC : occ r (fifoOf (register_message reg m hn k md now).2 r.chat_id) =
            occ r (fifoOf reg r.chat_id) := by
          rw [fifoOf_register, if_neg hc]
        rw [hFC]
        refine le_trans hHC ?_
        rw [if_neg hrec, Nat.add_zero]
        exact hI1 r

/-- The arguments of one `register_message` call. -/
structure RegOp where
  message : Message
  handler_name : Option String
  key : Option String
  metadata : Option (List (String × String))
  now : Int
  deriving DecidableEq, Repr

/-- Apply a finite sequence of `register_message` operations in order. -/
def applyOps (ops : List RegOp) (reg : MessageRegistry) : MessageRegistry :=
  match ops with
  | [] => reg
  | op :: rest =>
    applyOps rest
      (register_message reg op.message op.handler_name op.key op.metadata op.now).2

/-- A fresh registry satisfies the invariant. -/
theorem regInv_empty (maxPerChat : Nat) : RegInv (MessageRegistry.empty maxPerChat) := by
  refine ⟨?_, ?_, ?_, ?_, ?_, ?_, ?_⟩ <;>
    simp [MessageRegistry.empty, fifoOf, handlerAll, lookupA, occ]

/-- The invariant is preserved by any operation sequence. -/
theorem applyOps_inv (ops : List RegOp) (reg : MessageRegistry)
    (hmax : 0 < reg.max_messages_per_chat) (hinv : RegInv reg) :
    RegInv (applyOps ops reg) := by
  induction ops generalizing reg with
  | nil => exact hinv
  | cons op rest ih =>
    refine ih _ ?_ ?_
    · rw [register_message_max]
      exact hmax
    · exact register_preserves_inv _ _ _ _ _ _ hmax hinv

/-- Claim C4: after every finite sequence of `register_message`
operations on a fresh registry with positive capacity (with capacity 0
the Python code raises `IndexError` on the first registration), every
record reachable from a secondary index — every value of the key index
and every element of every handler-index list — is an element of the
FIFO deque of its own chat id. -/
theorem c4_index_records_in_fifo (ops : List RegOp) (maxPerChat : Nat)
    (hmax : 0 < maxPerChat) :
    (∀ e ∈ (applyOps ops (MessageRegistry.empty maxPerChat)).key_registry,
      e.2 ∈ fifoOf (applyOps ops (MessageRegistry.empty maxPerChat)) e.2.chat_id) ∧
    (∀ e ∈ (applyOps ops (MessageRegistry.empty maxPerChat)).handler_registry,
      ∀ r ∈ e.2,
        r ∈ fifoOf (applyOps ops (MessageRegistry.empty maxPerChat)) r.chat_id) := by
  obtain ⟨h0R, h0K, h0H, hI4, hI2, hI3, hI1⟩ :=
    applyOps_inv ops (MessageRegistry.empty maxPerChat) hmax (regInv_empty maxPerChat)
  refine ⟨hI3, ?_⟩
  intro e he r hr
  have hname : r.handler_name = e.1 := hI2 e he r hr
  have he2 : (e.1, e.2) ∈ (applyOps ops (MessageRegistry.empty maxPerChat)).handler_registry := by
    rw [Prod.mk.eta]
    exact he
  have hlook : lookupA e.1 (applyOps ops (MessageRegistry.empty maxPerChat)).handler_registry =
      some e.2 := lookupA_eq_of_mem_nodup h0H he2
  have hocc : 0 < occ r (handlerAll (applyOps ops (MessageRegistry.empty maxPerChat))
      r.handler_name) := by
    refine occ_pos_iff_mem.mpr ?_
    unfold handlerAll
    rw [hname, hlook]
    exact hr
  exact occ_pos_iff_mem.mp (lt_of_lt_of_le hocc (hI1 r))

/-- Operation sequence for the C4 witness: three registrations into one
chat with capacity 2, forcing one eviction. -/
def opsC4 : List RegOp :=
  [⟨⟨1, 5, some 1⟩, some "h", some "k1", none, 0⟩,
   ⟨⟨2, 5, some 2⟩, some "h", none, none, 0⟩,
   ⟨⟨3, 5, some 3⟩, some "g", some "k3", none, 0⟩]

/-- Witness for C4: the invariant consequence at a concrete overflowing
operation sequence. -/
theorem c4_index_records_in_fifo_witness :
    0 < 2 ∧
    ((∀ e ∈ (applyOps opsC4 (MessageRegistry.empty 2)).key_registry,
      e.2 ∈ fifoOf (applyOps opsC4 (MessageRegistry.empty 2)) e.2.chat_id) ∧
    (∀ e ∈ (applyOps opsC4 (MessageRegistry.empty 2)).handler_registry,
      ∀ r ∈ e.2, r ∈ fifoOf (applyOps opsC4 (MessageRegistry.empty 2)) r.chat_id)) :=
  ⟨by decide, c4_index_records_in_fifo opsC4 2 (by decide)⟩

end Botty
